import Mathlib

/-!
Verification of the font/glyph shaping core of the gfx text subsystem
(gfxFont.h excerpt): the packed CompressedGlyph record, the
DetailedGlyphStore side table, gfxShapedWord construction, the word-cache
aging policy, the font-cache expiration state machine, and the blocked
glyph-width store.

Machine integers (uint32_t) are embedded as `Nat`; wherever a C++ shift
can wrap, the result is reduced `% 2 ^ 32` explicitly.  Bit operations
use `&&&`, `|||`, `<<<`, `>>>` on `Nat`, matching the source expressions.
-/


/-! ### CompressedGlyph (gfxShapedWord::CompressedGlyph) -/

/-- 32-bit packed per-character glyph record (`gfxShapedWord::CompressedGlyph`). -/
structure CompressedGlyph where
  mValue : Nat
deriving DecidableEq, Repr

/-- `FLAG_IS_SIMPLE_GLYPH = 0x80000000U` -/
def FLAG_IS_SIMPLE_GLYPH : Nat := 0x80000000

/-- `FLAGS_CAN_BREAK_BEFORE = 0x60000000U` (two-bit break-type field) -/
def FLAGS_CAN_BREAK_BEFORE : Nat := 0x60000000

/-- `FLAGS_CAN_BREAK_SHIFT = 29` -/
def FLAGS_CAN_BREAK_SHIFT : Nat := 29

/-- `FLAG_CHAR_IS_SPACE = 0x10000000U` -/
def FLAG_CHAR_IS_SPACE : Nat := 0x10000000

/-- `ADVANCE_MASK = 0x0FFF0000U` (advance stored in appunits) -/
def ADVANCE_MASK : Nat := 0x0FFF0000

/-- `ADVANCE_SHIFT = 16` -/
def ADVANCE_SHIFT : Nat := 16

/-- `GLYPH_MASK = 0x0000FFFFU` -/
def GLYPH_MASK : Nat := 0x0000FFFF

/-- `FLAG_NOT_MISSING = 0x01` -/
def FLAG_NOT_MISSING : Nat := 0x01

/-- `FLAG_NOT_CLUSTER_START = 0x02` -/
def FLAG_NOT_CLUSTER_START : Nat := 0x02

/-- `FLAG_NOT_LIGATURE_GROUP_START = 0x04` -/
def FLAG_NOT_LIGATURE_GROUP_START : Nat := 0x04

/-- `FLAG_CHAR_IS_TAB = 0x08` -/
def FLAG_CHAR_IS_TAB : Nat := 0x08

/-- `FLAG_CHAR_IS_NEWLINE = 0x10` -/
def FLAG_CHAR_IS_NEWLINE : Nat := 0x10

/-- `FLAG_CHAR_IS_LOW_SURROGATE = 0x20` -/
def FLAG_CHAR_IS_LOW_SURROGATE : Nat := 0x20

/-- `CHAR_IDENTITY_FLAGS_MASK = 0x38` -/
def CHAR_IDENTITY_FLAGS_MASK : Nat := 0x38

/-- `GLYPH_COUNT_MASK = 0x00FFFF00U` -/
def GLYPH_COUNT_MASK : Nat := 0x00FFFF00

/-- `GLYPH_COUNT_SHIFT = 8` -/
def GLYPH_COUNT_SHIFT : Nat := 8

/-- `static bool IsSimpleGlyphID(uint32_t aGlyph)`:
`(aGlyph & GLYPH_MASK) == aGlyph`. -/
def CompressedGlyph.IsSimpleGlyphID (aGlyph : Nat) : Bool :=
  (aGlyph &&& GLYPH_MASK) == aGlyph

/-- `static bool IsSimpleAdvance(uint32_t aAdvance)`:
`(aAdvance & (ADVANCE_MASK >> ADVANCE_SHIFT)) == aAdvance`. -/
def CompressedGlyph.IsSimpleAdvance (aAdvance : Nat) : Bool :=
  (aAdvance &&& (ADVANCE_MASK >>> ADVANCE_SHIFT)) == aAdvance

/-- `bool IsSimpleGlyph() const { return (mValue & FLAG_IS_SIMPLE_GLYPH) != 0; }` -/
def CompressedGlyph.IsSimpleGlyph (c : CompressedGlyph) : Bool :=
  (c.mValue &&& FLAG_IS_SIMPLE_GLYPH) != 0

/-- `uint32_t GetSimpleAdvance() const { return (mValue & ADVANCE_MASK) >> ADVANCE_SHIFT; }` -/
def CompressedGlyph.GetSimpleAdvance (c : CompressedGlyph) : Nat :=
  (c.mValue &&& ADVANCE_MASK) >>> ADVANCE_SHIFT

/-- `uint32_t GetSimpleGlyph() const { return mValue & GLYPH_MASK; }` -/
def CompressedGlyph.GetSimpleGlyph (c : CompressedGlyph) : Nat :=
  c.mValue &&& GLYPH_MASK

/-- `bool IsMissing() const { return (mValue & (FLAG_NOT_MISSING|FLAG_IS_SIMPLE_GLYPH)) == 0; }` -/
def CompressedGlyph.IsMissing (c : CompressedGlyph) : Bool :=
  (c.mValue &&& (FLAG_NOT_MISSING ||| FLAG_IS_SIMPLE_GLYPH)) == 0

/-- `bool IsClusterStart() const`:
`(mValue & FLAG_IS_SIMPLE_GLYPH) || !(mValue & FLAG_NOT_CLUSTER_START)`. -/
def CompressedGlyph.IsClusterStart (c : CompressedGlyph) : Bool :=
  ((c.mValue &&& FLAG_IS_SIMPLE_GLYPH) != 0) ||
    ((c.mValue &&& FLAG_NOT_CLUSTER_START) == 0)

/-- `bool IsLigatureGroupStart() const`:
`(mValue & FLAG_IS_SIMPLE_GLYPH) || !(mValue & FLAG_NOT_LIGATURE_GROUP_START)`. -/
def CompressedGlyph.IsLigatureGroupStart (c : CompressedGlyph) : Bool :=
  ((c.mValue &&& FLAG_IS_SIMPLE_GLYPH) != 0) ||
    ((c.mValue &&& FLAG_NOT_LIGATURE_GROUP_START) == 0)

/-- `bool CharIsSpace() const { return (mValue & FLAG_CHAR_IS_SPACE) != 0; }` -/
def CompressedGlyph.CharIsSpace (c : CompressedGlyph) : Bool :=
  (c.mValue &&& FLAG_CHAR_IS_SPACE) != 0

/-- `bool CharIsTab() const { return !IsSimpleGlyph() && (mValue & FLAG_CHAR_IS_TAB) != 0; }` -/
def CompressedGlyph.CharIsTab (c : CompressedGlyph) : Bool :=
  !c.IsSimpleGlyph && ((c.mValue &&& FLAG_CHAR_IS_TAB) != 0)

/-- `bool CharIsNewline() const { return !IsSimpleGlyph() && (mValue & FLAG_CHAR_IS_NEWLINE) != 0; }` -/
def CompressedGlyph.CharIsNewline (c : CompressedGlyph) : Bool :=
  !c.IsSimpleGlyph && ((c.mValue &&& FLAG_CHAR_IS_NEWLINE) != 0)

/-- `uint32_t CharIdentityFlags() const`:
`IsSimpleGlyph() ? 0 : (mValue & CHAR_IDENTITY_FLAGS_MASK)`. -/
def CompressedGlyph.CharIdentityFlags (c : CompressedGlyph) : Nat :=
  if c.IsSimpleGlyph then 0 else c.mValue &&& CHAR_IDENTITY_FLAGS_MASK

/-- `uint8_t CanBreakBefore() const`:
`(mValue & FLAGS_CAN_BREAK_BEFORE) >> FLAGS_CAN_BREAK_SHIFT`. -/
def CompressedGlyph.CanBreakBefore (c : CompressedGlyph) : Nat :=
  (c.mValue &&& FLAGS_CAN_BREAK_BEFORE) >>> FLAGS_CAN_BREAK_SHIFT

/-- `CompressedGlyph& SetSimpleGlyph(uint32_t aAdvanceAppUnits, uint32_t aGlyph)`:
`mValue = (mValue & (FLAGS_CAN_BREAK_BEFORE | FLAG_CHAR_IS_SPACE)) |
 FLAG_IS_SIMPLE_GLYPH | (aAdvanceAppUnits << ADVANCE_SHIFT) | aGlyph`.
The uint32 shift is reduced mod `2 ^ 32`. -/
def CompressedGlyph.SetSimpleGlyph (c : CompressedGlyph)
    (aAdvanceAppUnits aGlyph : Nat) : CompressedGlyph :=
  ⟨(c.mValue &&& (FLAGS_CAN_BREAK_BEFORE ||| FLAG_CHAR_IS_SPACE)) |||
    FLAG_IS_SIMPLE_GLYPH |||
    ((aAdvanceAppUnits <<< ADVANCE_SHIFT) % 2 ^ 32) ||| aGlyph⟩

/-- `CompressedGlyph& SetComplex(bool aClusterStart, bool aLigatureStart, uint32_t aGlyphCount)`. -/
def CompressedGlyph.SetComplex (c : CompressedGlyph)
    (aClusterStart aLigatureStart : Bool) (aGlyphCount : Nat) : CompressedGlyph :=
  ⟨(c.mValue &&& (FLAGS_CAN_BREAK_BEFORE ||| FLAG_CHAR_IS_SPACE)) |||
    FLAG_NOT_MISSING |||
    c.CharIdentityFlags |||
    (if aClusterStart then 0 else FLAG_NOT_CLUSTER_START) |||
    (if aLigatureStart then 0 else FLAG_NOT_LIGATURE_GROUP_START) |||
    ((aGlyphCount <<< GLYPH_COUNT_SHIFT) % 2 ^ 32)⟩

/-- `CompressedGlyph& SetMissing(uint32_t aGlyphCount)`:
keeps break flags, the not-cluster-start flag and the space flag, carries
the char-identity flags, and stores the glyph count. -/
def CompressedGlyph.SetMissing (c : CompressedGlyph) (aGlyphCount : Nat) : CompressedGlyph :=
  ⟨(c.mValue &&& (FLAGS_CAN_BREAK_BEFORE ||| FLAG_NOT_CLUSTER_START |||
      FLAG_CHAR_IS_SPACE)) |||
    c.CharIdentityFlags |||
    ((aGlyphCount <<< GLYPH_COUNT_SHIFT) % 2 ^ 32)⟩

/-- `uint32_t GetGlyphCount() const { return (mValue & GLYPH_COUNT_MASK) >> GLYPH_COUNT_SHIFT; }` -/
def CompressedGlyph.GetGlyphCount (c : CompressedGlyph) : Nat :=
  (c.mValue &&& GLYPH_COUNT_MASK) >>> GLYPH_COUNT_SHIFT

/-- `void SetIsSpace() { mValue |= FLAG_CHAR_IS_SPACE; }` -/
def CompressedGlyph.SetIsSpace (c : CompressedGlyph) : CompressedGlyph :=
  ⟨c.mValue ||| FLAG_CHAR_IS_SPACE⟩

/-- `void SetIsTab() { mValue |= FLAG_CHAR_IS_TAB; }` (asserts non-simple). -/
def CompressedGlyph.SetIsTab (c : CompressedGlyph) : CompressedGlyph :=
  ⟨c.mValue ||| FLAG_CHAR_IS_TAB⟩

/-- `void SetIsNewline() { mValue |= FLAG_CHAR_IS_NEWLINE; }` (asserts non-simple). -/
def CompressedGlyph.SetIsNewline (c : CompressedGlyph) : CompressedGlyph :=
  ⟨c.mValue ||| FLAG_CHAR_IS_NEWLINE⟩

/-! ### DetailedGlyphStore (gfxShapedWord::DetailedGlyphStore) -/

/-- `gfxShapedWord::DetailedGlyph`: glyph id (or Unicode char when missing),
advance in appunits, x/y offsets.  The float offsets only ever carry exact
small values in the verified paths, embedded as `Int`. -/
structure DetailedGlyph where
  mGlyphID : Nat
  mAdvance : Int
  mXOffset : Int
  mYOffset : Int
deriving DecidableEq, Repr

instance : Inhabited DetailedGlyph := ⟨⟨0, 0, 0, 0⟩⟩

/-- `DetailedGlyphStore::DGRec`: source character offset and the index in
`mDetails` where this char's DetailedGlyphs begin. -/
structure DGRec where
  mOffset : Nat
  mIndex : Nat
deriving DecidableEq, Repr

instance : Inhabited DGRec := ⟨⟨0, 0⟩⟩

/-- `gfxShapedWord::DetailedGlyphStore`: concatenated record array plus the
offset-to-index table sorted by offset, and the last-used table position. -/
structure DetailedGlyphStore where
  mDetails : List DetailedGlyph
  mOffsetToIndex : List DGRec
  mLastUsed : Nat
deriving Repr

/-- `DetailedGlyphStore() : mLastUsed(0)` with empty arrays. -/
def DetailedGlyphStore.emptyStore : DetailedGlyphStore := ⟨[], [], 0⟩

/-- Modelled from the spec: `nsTArray::InsertElementSorted` with
`CompareRecordOffsets` (the array class is not part of the excerpt) —
sorted insertion, before the first record with a strictly greater offset. -/
def insertSortedByOffset (r : DGRec) : List DGRec → List DGRec
  | [] => [r]
  | x :: xs =>
      if r.mOffset < x.mOffset then r :: x :: xs
      else x :: insertSortedByOffset r xs

/-- Modelled from the spec: `nsTArray::BinaryIndexOf` with `CompareToOffset`
(the array class is not part of the excerpt) — search of the sorted offset
table; the position of the record whose offset equals the key, or `none`
for `NoIndex`. -/
def BinaryIndexOf (l : List DGRec) (aOffset : Nat) : Option Nat :=
  match l with
  | [] => none
  | r :: rest =>
      if r.mOffset == aOffset then some 0
      else (BinaryIndexOf rest aOffset).map (· + 1)

/-- `DetailedGlyph* Allocate(uint32_t aOffset, uint32_t aCount)`: appends
`aCount` records to `mDetails`, then appends the offset-index record when
offsets arrive in increasing order, falling back to sorted insertion.
The two fallible nsTArray growths (`AppendElements`, and
`AppendElement`/`InsertElementSorted`) receive explicit success flags;
the returned block pointer `mDetails.Elements() + detailIndex` is embedded
as the start index `detailIndex`, with `none` for the null return. -/
def DetailedGlyphStore.Allocate (s : DetailedGlyphStore) (aOffset aCount : Nat)
    (aDetailsOk aIndexOk : Bool) : DetailedGlyphStore × Option Nat :=
  let detailIndex := s.mDetails.length
  if !aDetailsOk then (s, none)
  else
    let s1 : DetailedGlyphStore :=
      { s with mDetails := s.mDetails ++ List.replicate aCount default }
    if s1.mOffsetToIndex.length == 0 ||
        aOffset > (s1.mOffsetToIndex.getLastD default).mOffset then
      if !aIndexOk then (s1, none)
      else ({ s1 with
                mOffsetToIndex := s1.mOffsetToIndex ++ [⟨aOffset, detailIndex⟩] },
            some detailIndex)
    else
      if !aIndexOk then (s1, none)
      else ({ s1 with
                mOffsetToIndex :=
                  insertSortedByOffset ⟨aOffset, detailIndex⟩ s1.mOffsetToIndex },
            some detailIndex)

/-- `DetailedGlyph* Get(uint32_t aOffset)`: checks the forward, initial,
current and backward fast paths on `mLastUsed` before the binary-search
fallback; returns the updated store (new `mLastUsed`) and the found block
start `mOffsetToIndex[mLastUsed].mIndex` (`none` embeds the asserting
`NoIndex` case). -/
def DetailedGlyphStore.Get (s : DetailedGlyphStore) (aOffset : Nat) :
    DetailedGlyphStore × Option Nat :=
  let len := s.mOffsetToIndex.length
  if s.mLastUsed < len - 1 &&
      ((s.mOffsetToIndex.getD (s.mLastUsed + 1) default).mOffset == aOffset) then
    ({ s with mLastUsed := s.mLastUsed + 1 },
     some (s.mOffsetToIndex.getD (s.mLastUsed + 1) default).mIndex)
  else if (s.mOffsetToIndex.getD 0 default).mOffset == aOffset then
    ({ s with mLastUsed := 0 },
     some (s.mOffsetToIndex.getD 0 default).mIndex)
  else if (s.mOffsetToIndex.getD s.mLastUsed default).mOffset == aOffset then
    (s, some (s.mOffsetToIndex.getD s.mLastUsed default).mIndex)
  else if 0 < s.mLastUsed &&
      ((s.mOffsetToIndex.getD (s.mLastUsed - 1) default).mOffset == aOffset) then
    ({ s with mLastUsed := s.mLastUsed - 1 },
     some (s.mOffsetToIndex.getD (s.mLastUsed - 1) default).mIndex)
  else
    match BinaryIndexOf s.mOffsetToIndex aOffset with
    | none => (s, none)
    | some j =>
        ({ s with mLastUsed := j },
         some (s.mOffsetToIndex.getD j default).mIndex)

/-- Applies a sequence of successful `Allocate(offset, count)` calls. -/
def applyAllocs (ops : List (Nat × Nat)) (s : DetailedGlyphStore) :
    DetailedGlyphStore :=
  match ops with
  | [] => s
  | (o, c) :: rest => applyAllocs rest (s.Allocate o c true true).1

/-- Applies a sequence of `Get` calls (only the `mLastUsed` state evolves). -/
def applyGets (gets : List Nat) (s : DetailedGlyphStore) : DetailedGlyphStore :=
  match gets with
  | [] => s
  | o :: rest => applyGets rest (s.Get o).1

/-- The start index that the `Allocate` call for offset `o` in the sequence
`ops` (run from an empty store) returned: the total record count of the
calls before it. -/
def allocStartIndex (ops : List (Nat × Nat)) (o : Nat) : Nat :=
  match ops with
  | [] => 0
  | (p, c) :: rest => if p = o then 0 else c + allocStartIndex rest o

/-- Sortedness invariant of the offset-to-index table: offsets strictly
increase. -/
def offsetSorted (l : List DGRec) : Prop :=
  l.Pairwise (fun a b => a.mOffset < b.mOffset)

/-! ### gfxShapedWord -/

/-- `gfxTextRunFactory::TEXT_IS_8BIT = 0x0020` -/
def TEXT_IS_8BIT : Nat := 0x0020

/-- `static const uint32_t kMaxLength = 0x7fff;` -/
def kMaxLength : Nat := 0x7fff

/-- `gfxFont::kShapedWordCacheMaxAge = 3` -/
def kShapedWordCacheMaxAge : Nat := 3

/-- `gfxShapedWord`: length, flags, scale, script, age counter, the
CompressedGlyph array and the trailing copy of the original text (8-bit
bytes or 16-bit code units, as `Nat` values). -/
structure gfxShapedWord where
  mLength : Nat
  mFlags : Nat
  mAppUnitsPerDevUnit : Int
  mScript : Int
  mAgeCounter : Nat
  mCharacterGlyphs : List CompressedGlyph
  mText : List Nat
deriving DecidableEq, Repr

/-- The 8-bit `gfxShapedWord` constructor: stores `aFlags | TEXT_IS_8BIT`,
zeroes the glyph records (`memset`) and copies the text bytes. -/
def gfxShapedWord.ctor8 (aText : List Nat) (aRunScript : Int)
    (aAppUnitsPerDevUnit : Int) (aFlags : Nat) : gfxShapedWord where
  mLength := aText.length
  mFlags := aFlags ||| TEXT_IS_8BIT
  mAppUnitsPerDevUnit := aAppUnitsPerDevUnit
  mScript := aRunScript
  mAgeCounter := 0
  mCharacterGlyphs := List.replicate aText.length ⟨0⟩
  mText := aText

/-- Modelled from the spec: `SetupClusterBoundaries` (called by the 16-bit
constructor; its body is not part of the excerpt, and no claim depends on
the cluster flags of 16-bit words) — embedded as the transformation that
leaves the zero-initialized glyph array unchanged. -/
def SetupClusterBoundaries (aGlyphs : List CompressedGlyph)
    (aString : List Nat) : List CompressedGlyph :=
  aGlyphs

/-- The 16-bit `gfxShapedWord` constructor: stores `aFlags` unchanged,
zeroes the glyph records, copies the code units, and runs
`SetupClusterBoundaries`. -/
def gfxShapedWord.ctor16 (aText : List Nat) (aRunScript : Int)
    (aAppUnitsPerDevUnit : Int) (aFlags : Nat) : gfxShapedWord where
  mLength := aText.length
  mFlags := aFlags
  mAppUnitsPerDevUnit := aAppUnitsPerDevUnit
  mScript := aRunScript
  mAgeCounter := 0
  mCharacterGlyphs := SetupClusterBoundaries (List.replicate aText.length ⟨0⟩) aText
  mText := aText

/-- `static gfxShapedWord* Create(const uint8_t*, ...)`: computes the size,
calls `moz_malloc` (whose success is the explicit `aMallocOk` flag) and
returns null on allocation failure, otherwise placement-news the 8-bit
constructor. -/
def gfxShapedWord.Create8 (aText : List Nat) (aRunScript : Int)
    (aAppUnitsPerDevUnit : Int) (aFlags : Nat) (aMallocOk : Bool) :
    Option gfxShapedWord :=
  if !aMallocOk then none
  else some (gfxShapedWord.ctor8 aText aRunScript aAppUnitsPerDevUnit aFlags)

/-- Modelled from the spec: `LossyAppendUTF16toASCII` (not part of the
excerpt) narrows each UTF-16 code unit to its low byte. -/
def lossyNarrow (aText : List Nat) : List Nat :=
  aText.map (fun u => u % 256)

/-- `static gfxShapedWord* Create(const PRUnichar*, ...)`: when the flags
contain `TEXT_IS_8BIT`, narrows the text and delegates to the 8-bit
`Create`; otherwise allocates (success again the explicit `aMallocOk`) and
runs the 16-bit constructor. -/
def gfxShapedWord.Create16 (aText : List Nat) (aRunScript : Int)
    (aAppUnitsPerDevUnit : Int) (aFlags : Nat) (aMallocOk : Bool) :
    Option gfxShapedWord :=
  if (aFlags &&& TEXT_IS_8BIT) != 0 then
    gfxShapedWord.Create8 (lossyNarrow aText) aRunScript aAppUnitsPerDevUnit
      aFlags aMallocOk
  else if !aMallocOk then none
  else some (gfxShapedWord.ctor16 aText aRunScript aAppUnitsPerDevUnit aFlags)

/-- `uint32_t Length() const { return mLength; }` -/
def gfxShapedWord.Length (w : gfxShapedWord) : Nat := w.mLength

/-- `uint32_t Flags() const { return mFlags; }` -/
def gfxShapedWord.Flags (w : gfxShapedWord) : Nat := w.mFlags

/-- `bool TextIs8Bit() const { return (Flags() & gfxTextRunFactory::TEXT_IS_8BIT) != 0; }` -/
def gfxShapedWord.TextIs8Bit (w : gfxShapedWord) : Bool :=
  (w.Flags &&& TEXT_IS_8BIT) != 0

/-- `const uint8_t* Text8Bit() const`: the trailing 8-bit text storage. -/
def gfxShapedWord.Text8Bit (w : gfxShapedWord) : List Nat := w.mText

/-- `const PRUnichar* TextUnicode() const`: the trailing 16-bit text storage. -/
def gfxShapedWord.TextUnicode (w : gfxShapedWord) : List Nat := w.mText

/-- `PRUnichar GetCharAt(uint32_t aOffset) const`:
`TextIs8Bit() ? PRUnichar(Text8Bit()[aOffset]) : TextUnicode()[aOffset]`. -/
def gfxShapedWord.GetCharAt (w : gfxShapedWord) (aOffset : Nat) : Nat :=
  if w.TextIs8Bit then (w.Text8Bit).getD aOffset 0
  else (w.TextUnicode).getD aOffset 0

/-- `void ResetAge() { mAgeCounter = 0; }` -/
def gfxShapedWord.ResetAge (w : gfxShapedWord) : gfxShapedWord :=
  { w with mAgeCounter := 0 }

/-- `uint32_t IncrementAge() { return ++mAgeCounter; }` -/
def gfxShapedWord.IncrementAge (w : gfxShapedWord) : gfxShapedWord × Nat :=
  ({ w with mAgeCounter := w.mAgeCounter + 1 }, w.mAgeCounter + 1)

/-! ### Word-cache aging (gfxFont::AgeCachedWords) and font lifecycle -/

/-- Modelled from the spec: `gfxFont::AgeCacheEntry` (body not in the
excerpt) — each `AgeCachedWords` pass increments every cached ShapedWord's
age via `IncrementAge` and evicts an entry whose age reaches
`kShapedWordCacheMaxAge` without an intervening lookup.  The word cache is
abstracted as an association of hash keys to ShapedWords. -/
def gfxFont.AgeCachedWords (cache : List (Nat × gfxShapedWord)) :
    List (Nat × gfxShapedWord) :=
  cache.filterMap (fun e =>
    let w := (e.2.IncrementAge).1
    if kShapedWordCacheMaxAge ≤ w.mAgeCounter then none else some (e.1, w))

/-- Modelled from the spec: the cache-hit path of `gfxFont::GetShapedWord`
(body not in the excerpt) — a hit resets the entry's age to zero
(`ResetAge`) and returns it; the miss path (shaping a fresh word and
inserting it) is outside the claims settled here. -/
def gfxFont.GetShapedWord (cache : List (Nat × gfxShapedWord)) (aKey : Nat) :
    List (Nat × gfxShapedWord) × Option gfxShapedWord :=
  match cache.find? (fun e => e.1 == aKey) with
  | none => (cache, none)
  | some e =>
      (cache.map (fun e2 => if e2.1 == aKey then (e2.1, e2.2.ResetAge) else e2),
       some e.2.ResetAge)

/-- Reference-count and expiration-tracker state of one `gfxFont`. -/
structure FontState where
  mRefCnt : Nat
  mTrackedGeneration : Option Nat
  mDestroyed : Bool
deriving DecidableEq, Repr

/-- `nsrefcnt AddRef(void)`: when `mExpirationState.IsTracked()`, first
`gfxFontCache::GetCache()->RemoveObject(this)` (tracker removal modelled
from the spec: `nsExpirationTracker` is not part of the excerpt), then
`++mRefCnt`. -/
def gfxFont.AddRef (f : FontState) : FontState :=
  let f1 := if f.mTrackedGeneration.isSome
            then { f with mTrackedGeneration := none } else f
  { f1 with mRefCnt := f1.mRefCnt + 1 }

/-- `void NotifyReleased()`: hands the font to the cache when the global
cache exists (`cache->NotifyReleased(this)` → tracker `AddObject`, modelled
from the spec as entering the tracker at generation 0), otherwise
`delete this`. -/
def gfxFont.NotifyReleased (aCacheExists : Bool) (f : FontState) : FontState :=
  if aCacheExists then { f with mTrackedGeneration := some 0 }
  else { f with mDestroyed := true }

/-- `nsrefcnt Release(void)`: `--mRefCnt; if (mRefCnt == 0) NotifyReleased();`. -/
def gfxFont.Release (aCacheExists : Bool) (f : FontState) : FontState :=
  let f1 := { f with mRefCnt := f.mRefCnt - 1 }
  if f1.mRefCnt == 0 then gfxFont.NotifyReleased aCacheExists f1 else f1

/-- `FONT_TIMEOUT_SECONDS = 10` -/
def FONT_TIMEOUT_SECONDS : Nat := 10

/-- The generation count of `nsExpirationTracker<gfxFont,3>`. -/
def kFontTrackerGenerations : Nat := 3

/-- Modelled from the spec: one timer generation of the font cache's
`nsExpirationTracker` (fires every `FONT_TIMEOUT_SECONDS`; the tracker
class is not part of the excerpt) — a tracked font ages one generation,
and a font that has survived all 3 generations without a new reference
expires (`NotifyExpired`) and is destroyed. -/
def gfxFontCache.AgeOneGeneration (f : FontState) : FontState :=
  match f.mTrackedGeneration with
  | none => f
  | some g =>
      if kFontTrackerGenerations ≤ g + 1 then
        { f with mTrackedGeneration := none, mDestroyed := true }
      else { f with mTrackedGeneration := some (g + 1) }

/-! ### gfxTextRun (glyph-data portion) -/

/-- The glyph-data portion of a `gfxTextRun`: its own CompressedGlyph array
and DetailedGlyphStore (the store class is shared with gfxShapedWord; a
null `mDetailedGlyphs` is embedded as the empty store). -/
structure gfxTextRun where
  mCharacterGlyphs : List CompressedGlyph
  mDetailedGlyphs : DetailedGlyphStore
deriving Repr

/-- Modelled from the spec: `gfxTextRun::AllocateDetailedGlyphs` (body not
in the excerpt) — creates the DetailedGlyphStore on demand and allocates
`aCount` records for `aIndex`; allocation success is assumed here, and the
returned block pointer is embedded as its start index. -/
def gfxTextRun.AllocateDetailedGlyphs (t : gfxTextRun) (aIndex aCount : Nat) :
    gfxTextRun × Nat :=
  let r := t.mDetailedGlyphs.Allocate aIndex aCount true true
  ({ t with mDetailedGlyphs := r.1 }, r.2.getD 0)

/-- Modelled from the spec: `gfxTextRun::SetGlyphs` (body not in the
excerpt) — when the record carries a positive glyph count, copies that many
supplied DetailedGlyph records into a freshly allocated block, then
installs the CompressedGlyph for the character. -/
def gfxTextRun.SetGlyphs (t : gfxTextRun) (aIndex : Nat)
    (aGlyph : CompressedGlyph) (aGlyphs : List DetailedGlyph) : gfxTextRun :=
  let glyphCount := aGlyph.GetGlyphCount
  let t1 :=
    if 0 < glyphCount then
      let r := t.AllocateDetailedGlyphs aIndex glyphCount
      let s := r.1.mDetailedGlyphs
      { r.1 with
          mDetailedGlyphs :=
            { s with
                mDetails :=
                  s.mDetails.take r.2 ++ aGlyphs.take glyphCount ++
                    s.mDetails.drop (r.2 + glyphCount) } }
    else t
  { t1 with mCharacterGlyphs := t1.mCharacterGlyphs.set aIndex aGlyph }

/-- `void SetIsTab(uint32_t aIndex)` (gfxTextRun): a simple glyph is first
converted to a complex record with a single DetailedGlyph carrying the
prior glyph id and advance with zero offsets, then the tab flag is set on
the record. -/
def gfxTextRun.SetIsTab (t : gfxTextRun) (aIndex : Nat) : gfxTextRun :=
  let g := t.mCharacterGlyphs.getD aIndex ⟨0⟩
  let t1 :=
    if g.IsSimpleGlyph then
      let details : DetailedGlyph :=
        ⟨g.GetSimpleGlyph, (g.GetSimpleAdvance : Int), 0, 0⟩
      t.SetGlyphs aIndex ((⟨0⟩ : CompressedGlyph).SetComplex true true 1)
        [details]
    else t
  { t1 with
      mCharacterGlyphs :=
        t1.mCharacterGlyphs.set aIndex
          ((t1.mCharacterGlyphs.getD aIndex ⟨0⟩).SetIsTab) }

/-- `void SetIsNewline(uint32_t aIndex)` (gfxTextRun): as `SetIsTab`, with
the newline flag. -/
def gfxTextRun.SetIsNewline (t : gfxTextRun) (aIndex : Nat) : gfxTextRun :=
  let g := t.mCharacterGlyphs.getD aIndex ⟨0⟩
  let t1 :=
    if g.IsSimpleGlyph then
      let details : DetailedGlyph :=
        ⟨g.GetSimpleGlyph, (g.GetSimpleAdvance : Int), 0, 0⟩
      t.SetGlyphs aIndex ((⟨0⟩ : CompressedGlyph).SetComplex true true 1)
        [details]
    else t
  { t1 with
      mCharacterGlyphs :=
        t1.mCharacterGlyphs.set aIndex
          ((t1.mCharacterGlyphs.getD aIndex ⟨0⟩).SetIsNewline) }

/-- `bool CharIsTab(uint32_t aPos)`-style access on the textrun's glyph
records. -/
def gfxTextRun.CharIsTab (t : gfxTextRun) (aPos : Nat) : Bool :=
  (t.mCharacterGlyphs.getD aPos ⟨0⟩).CharIsTab

/-- Newline classification at a position of the textrun. -/
def gfxTextRun.CharIsNewline (t : gfxTextRun) (aPos : Nat) : Bool :=
  (t.mCharacterGlyphs.getD aPos ⟨0⟩).CharIsNewline

/-- A one-character textrun holding a simple glyph, used to instantiate
theorems on a concrete input. -/
def sampleTextRun : gfxTextRun :=
  ⟨[(⟨0⟩ : CompressedGlyph).SetSimpleGlyph 100 7],
   DetailedGlyphStore.emptyStore⟩

/-! ### gfxGlyphExtents::GlyphWidths -/

/-- `INVALID_WIDTH = 0xFFFF` -/
def INVALID_WIDTH : Nat := 0xFFFF

/-- `BLOCK_SIZE_BITS = 7` -/
def BLOCK_SIZE_BITS : Nat := 7

/-- `BLOCK_SIZE = 1 << BLOCK_SIZE_BITS` (128-glyph blocks) -/
def BLOCK_SIZE : Nat := 1 <<< BLOCK_SIZE_BITS

/-- One `PtrBits` entry of `GlyphWidths::mBlocks`: zero (empty block), an
odd tagged word packing a single occupant (kept as the raw `Nat`, read via
`GetGlyphOffset`/`GetWidth`), or a pointer to a `BLOCK_SIZE`-entry width
array (embedded as the array itself). -/
inductive PtrBlock where
  | nullBits : PtrBlock
  | single (bits : Nat) : PtrBlock
  | widthsArray (widths : List Nat) : PtrBlock
deriving DecidableEq, Repr

/-- `static uint32_t GetGlyphOffset(PtrBits aBits)`:
`(aBits >> 1) & ((1 << BLOCK_SIZE_BITS) - 1)`. -/
def GetGlyphOffset (aBits : Nat) : Nat :=
  (aBits >>> 1) &&& ((1 <<< BLOCK_SIZE_BITS) - 1)

/-- `static uint32_t GetWidth(PtrBits aBits)`: `aBits >> (1 + BLOCK_SIZE_BITS)`. -/
def GetWidth (aBits : Nat) : Nat :=
  aBits >>> (1 + BLOCK_SIZE_BITS)

/-- `static PtrBits MakeSingle(uint32_t aGlyphOffset, uint16_t aWidth)`:
`(aWidth << (1 + BLOCK_SIZE_BITS)) + (aGlyphOffset << 1) + 1`. -/
def MakeSingle (aGlyphOffset aWidth : Nat) : Nat :=
  (aWidth <<< (1 + BLOCK_SIZE_BITS)) + (aGlyphOffset <<< 1) + 1

/-- `gfxGlyphExtents::GlyphWidths`: the blocked sparse width array. -/
structure GlyphWidths where
  mBlocks : List PtrBlock
deriving Repr

/-- `uint16_t Get(uint32_t aIndex) const`: block out of range or empty ⇒
`INVALID_WIDTH`; a tagged single-occupant block answers only for its
recorded in-block offset; otherwise the width array is read. -/
def GlyphWidths.Get (s : GlyphWidths) (aIndex : Nat) : Nat :=
  let block := aIndex >>> BLOCK_SIZE_BITS
  if s.mBlocks.length ≤ block then INVALID_WIDTH
  else
    match s.mBlocks.getD block PtrBlock.nullBits with
    | PtrBlock.nullBits => INVALID_WIDTH
    | PtrBlock.single bits =>
        let indexInBlock := aIndex &&& (BLOCK_SIZE - 1)
        if GetGlyphOffset bits != indexInBlock then INVALID_WIDTH
        else GetWidth bits
    | PtrBlock.widthsArray widths =>
        let indexInBlock := aIndex &&& (BLOCK_SIZE - 1)
        widths.getD indexInBlock INVALID_WIDTH

/-- Modelled from the spec (helper of `GlyphWidths::Set`): grow `mBlocks`
with empty entries until the target block index is in range. -/
def extendBlocks (l : List PtrBlock) (block : Nat) : List PtrBlock :=
  if l.length ≤ block then
    l ++ List.replicate (block + 1 - l.length) PtrBlock.nullBits
  else l

/-- Modelled from the spec (helper of `GlyphWidths::Set`): the replacement
block — an empty block becomes a packed single occupant; a packed single
occupant is overwritten in place when the offset matches and otherwise
expands into a full `BLOCK_SIZE` array initialized to `INVALID_WIDTH`
carrying the old occupant; a full array is updated in place. -/
def newBlockFor (old : PtrBlock) (indexInBlock aValue : Nat) : PtrBlock :=
  match old with
  | PtrBlock.nullBits => PtrBlock.single (MakeSingle indexInBlock aValue)
  | PtrBlock.single bits =>
      if GetGlyphOffset bits == indexInBlock then
        PtrBlock.single (MakeSingle indexInBlock aValue)
      else
        PtrBlock.widthsArray
          (((List.replicate BLOCK_SIZE INVALID_WIDTH).set
              (GetGlyphOffset bits) (GetWidth bits)).set indexInBlock aValue)
  | PtrBlock.widthsArray ws => PtrBlock.widthsArray (ws.set indexInBlock aValue)

/-- Modelled from the spec: `GlyphWidths::Set` (body not in the excerpt) —
blocks are allocated `BLOCK_SIZE` entries at a time, except that a block
containing exactly one occupied glyph is stored inline as a packed
offset+width word; storing a second occupant expands the packed entry into
a full array initialized to `INVALID_WIDTH`. -/
def GlyphWidths.Set (s : GlyphWidths) (aIndex aValue : Nat) : GlyphWidths :=
  let block := aIndex >>> BLOCK_SIZE_BITS
  let blocks := extendBlocks s.mBlocks block
  ⟨blocks.set block
    (newBlockFor (blocks.getD block PtrBlock.nullBits)
      (aIndex &&& (BLOCK_SIZE - 1)) aValue)⟩

/-- Applies a sequence of `Set(glyphId, width)` calls. -/
def applySets (sets : List (Nat × Nat)) (s : GlyphWidths) : GlyphWidths :=
  match sets with
  | [] => s
  | (g, w) :: rest => applySets rest (s.Set g w)

/-- The width most recently stored for glyph `g` by the call sequence. -/
def lastSetWidth (sets : List (Nat × Nat)) (g : Nat) : Option Nat :=
  match sets with
  | [] => none
  | (g2, w) :: rest =>
      match lastSetWidth rest g with
      | some w2 => some w2
      | none => if g2 = g then some w else none

/-- Well-formedness of the blocked store: every full block holds exactly
`BLOCK_SIZE` widths. -/
def widthsWF (s : GlyphWidths) : Prop :=
  ∀ b ∈ s.mBlocks, ∀ ws, b = PtrBlock.widthsArray ws → ws.length = BLOCK_SIZE

/-! ### Theorems -/

theorem testBit_false_of_lt {x n i : Nat} (hx : x < 2 ^ n) (hni : n ≤ i) :
    x.testBit i = false :=
  Nat.testBit_lt_two_pow
    (lt_of_lt_of_le hx (Nat.pow_le_pow_right (by norm_num) hni))

theorem tb_GLYPH_MASK (i : Nat) :
    Nat.testBit GLYPH_MASK i = decide (i < 16) := by
  have h : GLYPH_MASK = 2 ^ 16 - 1 := by decide
  rw [h, Nat.testBit_two_pow_sub_one]

theorem tb_ADVANCE_MASK (i : Nat) :
    Nat.testBit ADVANCE_MASK i = (decide (16 ≤ i) && decide (i - 16 < 12)) := by
  have h : ADVANCE_MASK = (2 ^ 12 - 1) <<< 16 := by decide
  rw [h, Nat.testBit_shiftLeft, Nat.testBit_two_pow_sub_one]

theorem tb_GLYPH_COUNT_MASK (i : Nat) :
    Nat.testBit GLYPH_COUNT_MASK i = (decide (8 ≤ i) && decide (i - 8 < 16)) := by
  have h : GLYPH_COUNT_MASK = (2 ^ 16 - 1) <<< 8 := by decide
  rw [h, Nat.testBit_shiftLeft, Nat.testBit_two_pow_sub_one]

theorem tb_CHAR_IDENTITY_FLAGS_MASK (i : Nat) :
    Nat.testBit CHAR_IDENTITY_FLAGS_MASK i = (decide (3 ≤ i) && decide (i - 3 < 3)) := by
  have h : CHAR_IDENTITY_FLAGS_MASK = (2 ^ 3 - 1) <<< 3 := by decide
  rw [h, Nat.testBit_shiftLeft, Nat.testBit_two_pow_sub_one]

theorem tb_FLAGS_CAN_BREAK_BEFORE (i : Nat) :
    Nat.testBit FLAGS_CAN_BREAK_BEFORE i = (decide (29 ≤ i) && decide (i - 29 < 2)) := by
  have h : FLAGS_CAN_BREAK_BEFORE = (2 ^ 2 - 1) <<< 29 := by decide
  rw [h, Nat.testBit_shiftLeft, Nat.testBit_two_pow_sub_one]

theorem tb_FLAG_IS_SIMPLE_GLYPH (i : Nat) :
    Nat.testBit FLAG_IS_SIMPLE_GLYPH i = decide (31 = i) := by
  have h : FLAG_IS_SIMPLE_GLYPH = 2 ^ 31 := by decide
  rw [h, Nat.testBit_two_pow]

theorem tb_FLAG_CHAR_IS_SPACE (i : Nat) :
    Nat.testBit FLAG_CHAR_IS_SPACE i = decide (28 = i) := by
  have h : FLAG_CHAR_IS_SPACE = 2 ^ 28 := by decide
  rw [h, Nat.testBit_two_pow]

theorem tb_FLAG_NOT_MISSING (i : Nat) :
    Nat.testBit FLAG_NOT_MISSING i = decide (0 = i) := by
  have h : FLAG_NOT_MISSING = 2 ^ 0 := by decide
  rw [h, Nat.testBit_two_pow]

theorem tb_FLAG_NOT_CLUSTER_START (i : Nat) :
    Nat.testBit FLAG_NOT_CLUSTER_START i = decide (1 = i) := by
  have h : FLAG_NOT_CLUSTER_START = 2 ^ 1 := by decide
  rw [h, Nat.testBit_two_pow]

theorem tb_FLAG_NOT_LIGATURE_GROUP_START (i : Nat) :
    Nat.testBit FLAG_NOT_LIGATURE_GROUP_START i = decide (2 = i) := by
  have h : FLAG_NOT_LIGATURE_GROUP_START = 2 ^ 2 := by decide
  rw [h, Nat.testBit_two_pow]

theorem tb_FLAG_CHAR_IS_TAB (i : Nat) :
    Nat.testBit FLAG_CHAR_IS_TAB i = decide (3 = i) := by
  have h : FLAG_CHAR_IS_TAB = 2 ^ 3 := by decide
  rw [h, Nat.testBit_two_pow]

theorem tb_FLAG_CHAR_IS_NEWLINE (i : Nat) :
    Nat.testBit FLAG_CHAR_IS_NEWLINE i = decide (4 = i) := by
  have h : FLAG_CHAR_IS_NEWLINE = 2 ^ 4 := by decide
  rw [h, Nat.testBit_two_pow]

theorem simple_advance_lt {a : Nat} (ha : CompressedGlyph.IsSimpleAdvance a = true) :
    a < 2 ^ 12 := by
  have hle := Nat.and_le_right (n := a) (m := ADVANCE_MASK >>> ADVANCE_SHIFT)
  simp [CompressedGlyph.IsSimpleAdvance] at ha
  rw [show ADVANCE_MASK >>> ADVANCE_SHIFT = 0xFFF by decide] at ha hle
  omega

theorem simple_glyph_id_lt {g : Nat} (hg : CompressedGlyph.IsSimpleGlyphID g = true) :
    g < 2 ^ 16 := by
  have hle := Nat.and_le_right (n := g) (m := GLYPH_MASK)
  simp [CompressedGlyph.IsSimpleGlyphID] at hg
  rw [GLYPH_MASK] at hg hle
  omega

theorem advance_shift_no_wrap {a : Nat} (ha : a < 2 ^ 12) :
    (a <<< ADVANCE_SHIFT) % 2 ^ 32 = a <<< ADVANCE_SHIFT := by
  apply Nat.mod_eq_of_lt
  rw [Nat.shiftLeft_eq, ADVANCE_SHIFT]
  simp only [show (2 : Nat) ^ 16 = 65536 by norm_num,
    show (2 : Nat) ^ 32 = 4294967296 by norm_num] at ha ⊢
  omega

theorem setSimpleGlyph_get_glyph (c : CompressedGlyph) {a g : Nat}
    (ha : CompressedGlyph.IsSimpleAdvance a = true)
    (hg : CompressedGlyph.IsSimpleGlyphID g = true) :
    (c.SetSimpleGlyph a g).GetSimpleGlyph = g := by
  have hglt : g < 2 ^ 16 := simple_glyph_id_lt hg
  have halt : a < 2 ^ 12 := simple_advance_lt ha
  unfold CompressedGlyph.SetSimpleGlyph CompressedGlyph.GetSimpleGlyph
  rw [advance_shift_no_wrap halt]
  apply Nat.eq_of_testBit_eq
  intro i
  simp only [Nat.testBit_and, Nat.testBit_or, tb_GLYPH_MASK,
    tb_FLAGS_CAN_BREAK_BEFORE, tb_FLAG_CHAR_IS_SPACE,
    tb_FLAG_IS_SIMPLE_GLYPH, Nat.testBit_shiftLeft, ADVANCE_SHIFT]
  by_cases hi : i < 16
  · have h29 : ¬ (29 ≤ i) := by omega
    have h28 : ¬ (28 = i) := by omega
    have h31 : ¬ (31 = i) := by omega
    have h16 : ¬ (16 ≤ i) := by omega
    simp [hi, h29, h28, h31, h16]
  · have hgf : g.testBit i = false := testBit_false_of_lt hglt (by omega)
    simp [hi, hgf]

theorem setSimpleGlyph_get_advance (c : CompressedGlyph) {a g : Nat}
    (ha : CompressedGlyph.IsSimpleAdvance a = true)
    (hg : CompressedGlyph.IsSimpleGlyphID g = true) :
    (c.SetSimpleGlyph a g).GetSimpleAdvance = a := by
  have hglt : g < 2 ^ 16 := simple_glyph_id_lt hg
  have halt : a < 2 ^ 12 := simple_advance_lt ha
  unfold CompressedGlyph.SetSimpleGlyph CompressedGlyph.GetSimpleAdvance
  rw [advance_shift_no_wrap halt]
  apply Nat.eq_of_testBit_eq
  intro j
  simp only [Nat.testBit_shiftRight, Nat.testBit_and, Nat.testBit_or,
    tb_ADVANCE_MASK, tb_FLAGS_CAN_BREAK_BEFORE, tb_FLAG_CHAR_IS_SPACE,
    tb_FLAG_IS_SIMPLE_GLYPH, Nat.testBit_shiftLeft, ADVANCE_SHIFT]
  by_cases hj : j < 12
  · have h29 : ¬ (29 ≤ 16 + j) := by omega
    have h28 : ¬ (28 = 16 + j) := by omega
    have h31 : ¬ (31 = 16 + j) := by omega
    have h16 : 16 ≤ 16 + j := by omega
    have hgf : g.testBit (16 + j) = false := testBit_false_of_lt hglt (by omega)
    have hsub : 16 + j - 16 = j := by omega
    simp [hj, h29, h28, h31, h16, hgf, hsub]
  · have haf : a.testBit j = false := testBit_false_of_lt halt (by omega)
    have hjj : ¬ (16 + j - 16 < 12) := by omega
    simp [hjj, haf]
    omega

theorem setSimpleGlyph_is_simple (c : CompressedGlyph) (a g : Nat) :
    (c.SetSimpleGlyph a g).IsSimpleGlyph = true := by
  unfold CompressedGlyph.SetSimpleGlyph CompressedGlyph.IsSimpleGlyph
  simp only [bne_iff_ne, ne_eq]
  intro hzero
  have htb := congrArg (fun x => Nat.testBit x 31) hzero
  simp only [Nat.testBit_and, Nat.testBit_or, tb_FLAG_IS_SIMPLE_GLYPH,
    Nat.zero_testBit] at htb
  simp at htb

theorem char_identity_flags_lt (c : CompressedGlyph) :
    c.CharIdentityFlags < 2 ^ 6 := by
  unfold CompressedGlyph.CharIdentityFlags
  split
  · norm_num
  · have hle := Nat.and_le_right (n := c.mValue) (m := CHAR_IDENTITY_FLAGS_MASK)
    rw [CHAR_IDENTITY_FLAGS_MASK] at hle ⊢
    omega

theorem setSimpleGlyph_and_break (c : CompressedGlyph) {a g : Nat}
    (ha : CompressedGlyph.IsSimpleAdvance a = true)
    (hg : CompressedGlyph.IsSimpleGlyphID g = true) :
    (c.SetSimpleGlyph a g).mValue &&& FLAGS_CAN_BREAK_BEFORE =
      c.mValue &&& FLAGS_CAN_BREAK_BEFORE := by
  have hglt : g < 2 ^ 16 := simple_glyph_id_lt hg
  have halt : a < 2 ^ 12 := simple_advance_lt ha
  unfold CompressedGlyph.SetSimpleGlyph
  rw [advance_shift_no_wrap halt]
  apply Nat.eq_of_testBit_eq
  intro i
  simp only [Nat.testBit_and, Nat.testBit_or, tb_FLAGS_CAN_BREAK_BEFORE,
    tb_FLAG_CHAR_IS_SPACE, tb_FLAG_IS_SIMPLE_GLYPH, Nat.testBit_shiftLeft,
    ADVANCE_SHIFT]
  by_cases hi : 29 ≤ i ∧ i - 29 < 2
  · have h28 : ¬ (28 = i) := by omega
    have h31 : ¬ (31 = i) := by omega
    have haf : a.testBit (i - 16) = false := testBit_false_of_lt halt (by omega)
    have hgf : g.testBit i = false := testBit_false_of_lt hglt (by omega)
    simp [hi.1, hi.2, h28, h31, haf, hgf]
  · rcases Decidable.not_and_iff_or_not.mp hi with h | h <;> simp [h]

theorem count_shift_no_wrap {n : Nat} (hn : n < 2 ^ 16) :
    (n <<< GLYPH_COUNT_SHIFT) % 2 ^ 32 = n <<< GLYPH_COUNT_SHIFT := by
  apply Nat.mod_eq_of_lt
  rw [Nat.shiftLeft_eq, GLYPH_COUNT_SHIFT]
  simp only [show (2 : Nat) ^ 8 = 256 by norm_num,
    show (2 : Nat) ^ 16 = 65536 by norm_num,
    show (2 : Nat) ^ 32 = 4294967296 by norm_num] at hn ⊢
  omega

theorem ite_cluster_lt (b : Bool) :
    (if b then 0 else FLAG_NOT_CLUSTER_START) < 2 ^ 3 := by
  cases b <;> norm_num [FLAG_NOT_CLUSTER_START]

theorem ite_ligature_lt (b : Bool) :
    (if b then 0 else FLAG_NOT_LIGATURE_GROUP_START) < 2 ^ 3 := by
  cases b <;> norm_num [FLAG_NOT_LIGATURE_GROUP_START]

theorem setComplex_and_break (c : CompressedGlyph) (cs ls : Bool) {n : Nat}
    (hn : n < 2 ^ 16) :
    (c.SetComplex cs ls n).mValue &&& FLAGS_CAN_BREAK_BEFORE =
      c.mValue &&& FLAGS_CAN_BREAK_BEFORE := by
  unfold CompressedGlyph.SetComplex
  rw [count_shift_no_wrap hn]
  apply Nat.eq_of_testBit_eq
  intro i
  simp only [Nat.testBit_and, Nat.testBit_or, tb_FLAGS_CAN_BREAK_BEFORE,
    tb_FLAG_CHAR_IS_SPACE, tb_FLAG_NOT_MISSING, Nat.testBit_shiftLeft,
    GLYPH_COUNT_SHIFT]
  by_cases hi : 29 ≤ i ∧ i - 29 < 2
  · have h28 : ¬ (28 = i) := by omega
    have h0 : ¬ (0 = i) := by omega
    have hid : (c.CharIdentityFlags).testBit i = false :=
      testBit_false_of_lt (char_identity_flags_lt c) (by omega)
    have hcs : (if cs then 0 else FLAG_NOT_CLUSTER_START).testBit i = false :=
      testBit_false_of_lt (ite_cluster_lt cs) (by omega)
    have hls : (if ls then 0 else FLAG_NOT_LIGATURE_GROUP_START).testBit i = false :=
      testBit_false_of_lt (ite_ligature_lt ls) (by omega)
    have hct : n.testBit (i - 8) = false := testBit_false_of_lt hn (by omega)
    simp [hi.1, hi.2, h28, h0, hid, hcs, hls, hct]
  · rcases Decidable.not_and_iff_or_not.mp hi with h | h <;> simp [h]

theorem setMissing_and_break (c : CompressedGlyph) {n : Nat} (hn : n < 2 ^ 16) :
    (c.SetMissing n).mValue &&& FLAGS_CAN_BREAK_BEFORE =
      c.mValue &&& FLAGS_CAN_BREAK_BEFORE := by
  unfold CompressedGlyph.SetMissing
  rw [count_shift_no_wrap hn]
  apply Nat.eq_of_testBit_eq
  intro i
  simp only [Nat.testBit_and, Nat.testBit_or, tb_FLAGS_CAN_BREAK_BEFORE,
    tb_FLAG_CHAR_IS_SPACE, tb_FLAG_NOT_CLUSTER_START, Nat.testBit_shiftLeft,
    GLYPH_COUNT_SHIFT]
  by_cases hi : 29 ≤ i ∧ i - 29 < 2
  · have h28 : ¬ (28 = i) := by omega
    have h1 : ¬ (1 = i) := by omega
    have hid : (c.CharIdentityFlags).testBit i = false :=
      testBit_false_of_lt (char_identity_flags_lt c) (by omega)
    have hct : n.testBit (i - 8) = false := testBit_false_of_lt hn (by omega)
    simp [hi.1, hi.2, h28, h1, hid, hct]
  · rcases Decidable.not_and_iff_or_not.mp hi with h | h <;> simp [h]

theorem setSimpleGlyph_and_space (c : CompressedGlyph) {a g : Nat}
    (ha : CompressedGlyph.IsSimpleAdvance a = true)
    (hg : CompressedGlyph.IsSimpleGlyphID g = true) :
    (c.SetSimpleGlyph a g).mValue &&& FLAG_CHAR_IS_SPACE =
      c.mValue &&& FLAG_CHAR_IS_SPACE := by
  have hglt : g < 2 ^ 16 := simple_glyph_id_lt hg
  have halt : a < 2 ^ 12 := simple_advance_lt ha
  unfold CompressedGlyph.SetSimpleGlyph
  rw [advance_shift_no_wrap halt]
  apply Nat.eq_of_testBit_eq
  intro i
  simp only [Nat.testBit_and, Nat.testBit_or, tb_FLAGS_CAN_BREAK_BEFORE,
    tb_FLAG_CHAR_IS_SPACE, tb_FLAG_IS_SIMPLE_GLYPH, Nat.testBit_shiftLeft,
    ADVANCE_SHIFT]
  by_cases hi : 28 = i
  · subst hi
    have haf : a.testBit (28 - 16) = false := testBit_false_of_lt halt (by omega)
    have hgf : g.testBit 28 = false := testBit_false_of_lt hglt (by omega)
    simp [haf, hgf]
  · simp [hi]

theorem setComplex_and_space (c : CompressedGlyph) (cs ls : Bool) {n : Nat}
    (hn : n < 2 ^ 16) :
    (c.SetComplex cs ls n).mValue &&& FLAG_CHAR_IS_SPACE =
      c.mValue &&& FLAG_CHAR_IS_SPACE := by
  unfold CompressedGlyph.SetComplex
  rw [count_shift_no_wrap hn]
  apply Nat.eq_of_testBit_eq
  intro i
  simp only [Nat.testBit_and, Nat.testBit_or, tb_FLAGS_CAN_BREAK_BEFORE,
    tb_FLAG_CHAR_IS_SPACE, tb_FLAG_NOT_MISSING, Nat.testBit_shiftLeft,
    GLYPH_COUNT_SHIFT]
  by_cases hi : 28 = i
  · subst hi
    have hid : (c.CharIdentityFlags).testBit 28 = false :=
      testBit_false_of_lt (char_identity_flags_lt c) (by omega)
    have hcs : (if cs then 0 else FLAG_NOT_CLUSTER_START).testBit 28 = false :=
      testBit_false_of_lt (ite_cluster_lt cs) (by omega)
    have hls : (if ls then 0 else FLAG_NOT_LIGATURE_GROUP_START).testBit 28 = false :=
      testBit_false_of_lt (ite_ligature_lt ls) (by omega)
    have hct : n.testBit (28 - 8) = false := testBit_false_of_lt hn (by omega)
    simp [hid, hcs, hls, hct]
  · simp [hi]

theorem setMissing_and_space (c : CompressedGlyph) {n : Nat} (hn : n < 2 ^ 16) :
    (c.SetMissing n).mValue &&& FLAG_CHAR_IS_SPACE =
      c.mValue &&& FLAG_CHAR_IS_SPACE := by
  unfold CompressedGlyph.SetMissing
  rw [count_shift_no_wrap hn]
  apply Nat.eq_of_testBit_eq
  intro i
  simp only [Nat.testBit_and, Nat.testBit_or, tb_FLAGS_CAN_BREAK_BEFORE,
    tb_FLAG_CHAR_IS_SPACE, tb_FLAG_NOT_CLUSTER_START, Nat.testBit_shiftLeft,
    GLYPH_COUNT_SHIFT]
  by_cases hi : 28 = i
  · subst hi
    have hid : (c.CharIdentityFlags).testBit 28 = false :=
      testBit_false_of_lt (char_identity_flags_lt c) (by omega)
    have hct : n.testBit (28 - 8) = false := testBit_false_of_lt hn (by omega)
    simp [hid, hct]
  · simp [hi]

theorem char_identity_testBit_false (c : CompressedGlyph) {i : Nat}
    (h : i < 3 ∨ 6 ≤ i) : c.CharIdentityFlags.testBit i = false := by
  unfold CompressedGlyph.CharIdentityFlags
  split
  · exact Nat.zero_testBit i
  · simp only [Nat.testBit_and, tb_CHAR_IDENTITY_FLAGS_MASK]
    rcases h with h | h
    · have hh : ¬ (3 ≤ i) := by omega
      simp [hh]
    · have hh : ¬ (i - 3 < 3) := by omega
      simp [hh]

theorem setMissing_and_simple (c : CompressedGlyph) {n : Nat} (hn : n < 2 ^ 16) :
    (c.SetMissing n).mValue &&& FLAG_IS_SIMPLE_GLYPH = 0 := by
  unfold CompressedGlyph.SetMissing
  rw [count_shift_no_wrap hn]
  apply Nat.eq_of_testBit_eq
  intro i
  simp only [Nat.testBit_and, Nat.testBit_or, tb_FLAGS_CAN_BREAK_BEFORE,
    tb_FLAG_CHAR_IS_SPACE, tb_FLAG_NOT_CLUSTER_START, tb_FLAG_IS_SIMPLE_GLYPH,
    Nat.testBit_shiftLeft, GLYPH_COUNT_SHIFT, Nat.zero_testBit]
  by_cases hi : 31 = i
  · subst hi
    have hid : (c.CharIdentityFlags).testBit 31 = false :=
      char_identity_testBit_false c (by omega)
    have hct : n.testBit (31 - 8) = false := testBit_false_of_lt hn (by omega)
    simp [hid, hct]
  · simp [hi]

theorem setMissing_and_not_missing (c : CompressedGlyph) {n : Nat} (hn : n < 2 ^ 16) :
    (c.SetMissing n).mValue &&& (FLAG_NOT_MISSING ||| FLAG_IS_SIMPLE_GLYPH) = 0 := by
  unfold CompressedGlyph.SetMissing
  rw [count_shift_no_wrap hn]
  apply Nat.eq_of_testBit_eq
  intro i
  simp only [Nat.testBit_and, Nat.testBit_or, tb_FLAGS_CAN_BREAK_BEFORE,
    tb_FLAG_CHAR_IS_SPACE, tb_FLAG_NOT_CLUSTER_START, tb_FLAG_IS_SIMPLE_GLYPH,
    tb_FLAG_NOT_MISSING, Nat.testBit_shiftLeft, GLYPH_COUNT_SHIFT, Nat.zero_testBit]
  by_cases hi0 : 0 = i
  · subst hi0
    have hid0 : (c.CharIdentityFlags).testBit 0 = false :=
      char_identity_testBit_false c (by omega)
    simp [hid0]
  · by_cases hi31 : 31 = i
    · subst hi31
      have hid : (c.CharIdentityFlags).testBit 31 = false :=
        char_identity_testBit_false c (by omega)
      have hct : n.testBit (31 - 8) = false := testBit_false_of_lt hn (by omega)
      simp [hid, hct]
    · simp [hi0, hi31]

theorem setMissing_and_not_ligature (c : CompressedGlyph) {n : Nat} (hn : n < 2 ^ 16) :
    (c.SetMissing n).mValue &&& FLAG_NOT_LIGATURE_GROUP_START = 0 := by
  unfold CompressedGlyph.SetMissing
  rw [count_shift_no_wrap hn]
  apply Nat.eq_of_testBit_eq
  intro i
  simp only [Nat.testBit_and, Nat.testBit_or, tb_FLAGS_CAN_BREAK_BEFORE,
    tb_FLAG_CHAR_IS_SPACE, tb_FLAG_NOT_CLUSTER_START,
    tb_FLAG_NOT_LIGATURE_GROUP_START, Nat.testBit_shiftLeft,
    GLYPH_COUNT_SHIFT, Nat.zero_testBit]
  by_cases hi : 2 = i
  · subst hi
    have hid : (c.CharIdentityFlags).testBit 2 = false :=
      char_identity_testBit_false c (by omega)
    simp [hid]
  · simp [hi]

theorem setMissing_glyph_count (c : CompressedGlyph) {n : Nat} (hn : n < 2 ^ 16) :
    (c.SetMissing n).GetGlyphCount = n := by
  unfold CompressedGlyph.SetMissing CompressedGlyph.GetGlyphCount
  rw [count_shift_no_wrap hn]
  apply Nat.eq_of_testBit_eq
  intro j
  simp only [Nat.testBit_shiftRight, Nat.testBit_and, Nat.testBit_or,
    tb_FLAGS_CAN_BREAK_BEFORE, tb_FLAG_CHAR_IS_SPACE, tb_FLAG_NOT_CLUSTER_START,
    tb_GLYPH_COUNT_MASK, Nat.testBit_shiftLeft, GLYPH_COUNT_SHIFT]
  by_cases hj : j < 16
  · have h29 : ¬ (29 ≤ 8 + j) := by omega
    have h28 : ¬ (28 = 8 + j) := by omega
    have h1 : ¬ (1 = 8 + j) := by omega
    have h8 : 8 ≤ 8 + j := by omega
    have hsub : 8 + j - 8 = j := by omega
    have hid : (c.CharIdentityFlags).testBit (8 + j) = false :=
      char_identity_testBit_false c (by omega)
    simp [hj, h29, h28, h1, h8, hsub, hid]
  · have hnf : n.testBit j = false := testBit_false_of_lt hn (by omega)
    have hjj : ¬ (8 + j - 8 < 16) := by omega
    simp [hjj, hnf]
    omega

theorem setMissing_and_not_cluster (c : CompressedGlyph) {n : Nat} (hn : n < 2 ^ 16) :
    (c.SetMissing n).mValue &&& FLAG_NOT_CLUSTER_START =
      c.mValue &&& FLAG_NOT_CLUSTER_START := by
  unfold CompressedGlyph.SetMissing
  rw [count_shift_no_wrap hn]
  apply Nat.eq_of_testBit_eq
  intro i
  simp only [Nat.testBit_and, Nat.testBit_or, tb_FLAGS_CAN_BREAK_BEFORE,
    tb_FLAG_CHAR_IS_SPACE, tb_FLAG_NOT_CLUSTER_START, Nat.testBit_shiftLeft,
    GLYPH_COUNT_SHIFT]
  by_cases hi : 1 = i
  · subst hi
    have hid : (c.CharIdentityFlags).testBit 1 = false :=
      char_identity_testBit_false c (by omega)
    simp [hid]
  · simp [hi]

theorem nat_le_ffff_lt (n : Nat) (hn : n ≤ 0xFFFF) : n < 2 ^ 16 := by
  simp only [show (2 : Nat) ^ 16 = 65536 by norm_num]
  omega

/-- Claim C1: for every glyph id accepted by `IsSimpleGlyphID` and every
advance accepted by `IsSimpleAdvance`, `SetSimpleGlyph` yields a record that
`IsSimpleGlyph` recognises and from which `GetSimpleGlyph`/`GetSimpleAdvance`
recover exactly the stored glyph id and advance. -/
theorem C1_set_simple_glyph_roundtrip (c : CompressedGlyph) (a g : Nat)
    (ha : CompressedGlyph.IsSimpleAdvance a = true)
    (hg : CompressedGlyph.IsSimpleGlyphID g = true) :
    (c.SetSimpleGlyph a g).IsSimpleGlyph = true ∧
    (c.SetSimpleGlyph a g).GetSimpleGlyph = g ∧
    (c.SetSimpleGlyph a g).GetSimpleAdvance = a :=
  ⟨setSimpleGlyph_is_simple c a g, setSimpleGlyph_get_glyph c ha hg,
    setSimpleGlyph_get_advance c ha hg⟩

theorem C1_set_simple_glyph_roundtrip_witness :
    CompressedGlyph.IsSimpleAdvance 120 = true ∧
    CompressedGlyph.IsSimpleGlyphID 437 = true ∧
    ((⟨0⟩ : CompressedGlyph).SetSimpleGlyph 120 437).IsSimpleGlyph = true ∧
    ((⟨0⟩ : CompressedGlyph).SetSimpleGlyph 120 437).GetSimpleGlyph = 437 ∧
    ((⟨0⟩ : CompressedGlyph).SetSimpleGlyph 120 437).GetSimpleAdvance = 120 := by
  have h := C1_set_simple_glyph_roundtrip ⟨0⟩ 120 437 (by decide) (by decide)
  exact ⟨by decide, by decide, h.1, h.2.1, h.2.2⟩

/-- Claim C6: the representation-changing setters `SetSimpleGlyph`,
`SetComplex` and `SetMissing`, applied with valid arguments (advance and
glyph id in the simple ranges, glyph count within the 16-bit count field),
leave the two-bit `CanBreakBefore` field and the `CharIsSpace` flag
unchanged. -/
theorem C6_setters_preserve_break_and_space (c : CompressedGlyph) (a g n : Nat) (cs ls : Bool)
    (ha : CompressedGlyph.IsSimpleAdvance a = true)
    (hg : CompressedGlyph.IsSimpleGlyphID g = true)
    (hn : n ≤ 0xFFFF) :
    ((c.SetSimpleGlyph a g).CanBreakBefore = c.CanBreakBefore ∧
      (c.SetSimpleGlyph a g).CharIsSpace = c.CharIsSpace) ∧
    ((c.SetComplex cs ls n).CanBreakBefore = c.CanBreakBefore ∧
      (c.SetComplex cs ls n).CharIsSpace = c.CharIsSpace) ∧
    ((c.SetMissing n).CanBreakBefore = c.CanBreakBefore ∧
      (c.SetMissing n).CharIsSpace = c.CharIsSpace) := by
  have hn16 : n < 2 ^ 16 := nat_le_ffff_lt n hn
  refine ⟨⟨?_, ?_⟩, ⟨?_, ?_⟩, ⟨?_, ?_⟩⟩
  · unfold CompressedGlyph.CanBreakBefore
    rw [setSimpleGlyph_and_break c ha hg]
  · unfold CompressedGlyph.CharIsSpace
    rw [setSimpleGlyph_and_space c ha hg]
  · unfold CompressedGlyph.CanBreakBefore
    rw [setComplex_and_break c cs ls hn16]
  · unfold CompressedGlyph.CharIsSpace
    rw [setComplex_and_space c cs ls hn16]
  · unfold CompressedGlyph.CanBreakBefore
    rw [setMissing_and_break c hn16]
  · unfold CompressedGlyph.CharIsSpace
    rw [setMissing_and_space c hn16]

/-- Claim C7 as stated is false: on the (unreachable) record whose value has
both the simple-glyph bit and the not-cluster-start bit set, `SetMissing 1`
changes `IsClusterStart`; and for a glyph count as large as `2 ^ 23`, the
shifted count sets the simple-glyph bit, so `IsMissing` fails to hold. -/
theorem C7_set_missing_counterexample :
    ¬ (((⟨0x80000002⟩ : CompressedGlyph).SetMissing 1).IsClusterStart =
        (⟨0x80000002⟩ : CompressedGlyph).IsClusterStart) ∧
    ¬ (((⟨0⟩ : CompressedGlyph).SetMissing (2 ^ 23)).IsMissing = true) := by
  decide

/-- Claim C7 amended: for every record and every glyph count in the 16-bit
glyph-count field, `SetMissing` yields a non-simple record with
`IsMissing` true, `IsLigatureGroupStart` true and `GetGlyphCount` equal to
the count; the not-cluster-start flag is carried over, so `IsClusterStart`
is preserved for every record that is not already a simple glyph. -/
theorem C7_set_missing_amended (c : CompressedGlyph) (n : Nat) (hn : n ≤ 0xFFFF) :
    (c.SetMissing n).IsSimpleGlyph = false ∧
    (c.SetMissing n).IsMissing = true ∧
    (c.SetMissing n).IsLigatureGroupStart = true ∧
    (c.SetMissing n).GetGlyphCount = n ∧
    (c.IsSimpleGlyph = false →
      (c.SetMissing n).IsClusterStart = c.IsClusterStart) := by
  have hn16 : n < 2 ^ 16 := nat_le_ffff_lt n hn
  refine ⟨?_, ?_, ?_, setMissing_glyph_count c hn16, ?_⟩
  · unfold CompressedGlyph.IsSimpleGlyph
    rw [setMissing_and_simple c hn16]
    decide
  · unfold CompressedGlyph.IsMissing
    rw [setMissing_and_not_missing c hn16]
    decide
  · unfold CompressedGlyph.IsLigatureGroupStart
    rw [setMissing_and_not_ligature c hn16]
    simp
  · intro hns
    unfold CompressedGlyph.IsClusterStart
    unfold CompressedGlyph.IsSimpleGlyph at hns
    have hns0 : c.mValue &&& FLAG_IS_SIMPLE_GLYPH = 0 := by
      simpa using hns
    rw [setMissing_and_simple c hn16, setMissing_and_not_cluster c hn16, hns0]

theorem C6_setters_preserve_break_and_space_witness :
    CompressedGlyph.IsSimpleAdvance 100 = true ∧
    CompressedGlyph.IsSimpleGlyphID 7 = true ∧
    3 ≤ 0xFFFF ∧
    (((((⟨0x50000000⟩ : CompressedGlyph).SetSimpleGlyph 100 7).CanBreakBefore =
          (⟨0x50000000⟩ : CompressedGlyph).CanBreakBefore) ∧
      ((((⟨0x50000000⟩ : CompressedGlyph).SetSimpleGlyph 100 7).CharIsSpace =
          (⟨0x50000000⟩ : CompressedGlyph).CharIsSpace))) ∧
     ((((⟨0x50000000⟩ : CompressedGlyph).SetComplex false true 3).CanBreakBefore =
          (⟨0x50000000⟩ : CompressedGlyph).CanBreakBefore) ∧
      ((((⟨0x50000000⟩ : CompressedGlyph).SetComplex false true 3).CharIsSpace =
          (⟨0x50000000⟩ : CompressedGlyph).CharIsSpace))) ∧
     ((((⟨0x50000000⟩ : CompressedGlyph).SetMissing 3).CanBreakBefore =
          (⟨0x50000000⟩ : CompressedGlyph).CanBreakBefore) ∧
      ((((⟨0x50000000⟩ : CompressedGlyph).SetMissing 3).CharIsSpace =
          (⟨0x50000000⟩ : CompressedGlyph).CharIsSpace)))) :=
  ⟨by decide, by decide, by decide,
    C6_setters_preserve_break_and_space ⟨0x50000000⟩ 100 7 3 false true (by decide) (by decide) (by decide)⟩

theorem C7_set_missing_amended_witness :
    7 ≤ 0xFFFF ∧
    (((⟨0x2⟩ : CompressedGlyph).SetMissing 7).IsSimpleGlyph = false ∧
     ((⟨0x2⟩ : CompressedGlyph).SetMissing 7).IsMissing = true ∧
     ((⟨0x2⟩ : CompressedGlyph).SetMissing 7).IsLigatureGroupStart = true ∧
     ((⟨0x2⟩ : CompressedGlyph).SetMissing 7).GetGlyphCount = 7 ∧
     ((⟨0x2⟩ : CompressedGlyph).IsSimpleGlyph = false →
       ((⟨0x2⟩ : CompressedGlyph).SetMissing 7).IsClusterStart =
         (⟨0x2⟩ : CompressedGlyph).IsClusterStart)) :=
  ⟨by decide, C7_set_missing_amended ⟨0x2⟩ 7 (by decide)⟩

theorem mem_insertSortedByOffset {r : DGRec} {l : List DGRec} {x : DGRec} :
    x ∈ insertSortedByOffset r l ↔ x = r ∨ x ∈ l := by
  induction l with
  | nil => simp [insertSortedByOffset]
  | cons y ys ih =>
      unfold insertSortedByOffset
      split
      · exact List.mem_cons
      · simp only [List.mem_cons, ih]
        tauto

theorem insertSortedByOffset_sorted {r : DGRec} {l : List DGRec}
    (hs : offsetSorted l) (hfresh : ∀ x ∈ l, x.mOffset ≠ r.mOffset) :
    offsetSorted (insertSortedByOffset r l) := by
  induction l with
  | nil => simp [insertSortedByOffset, offsetSorted]
  | cons y ys ih =>
      unfold offsetSorted at hs ⊢
      rw [List.pairwise_cons] at hs
      unfold insertSortedByOffset
      split
      · rename_i hlt
        rw [List.pairwise_cons]
        constructor
        · intro b hb
          rcases List.mem_cons.mp hb with h | h
          · exact h ▸ hlt
          · exact lt_trans hlt (hs.1 b h)
        · rw [List.pairwise_cons]
          exact hs
      · rename_i hnlt
        rw [List.pairwise_cons]
        have hyr : y.mOffset < r.mOffset := by
          have := hfresh y (List.mem_cons_self y ys)
          omega
        constructor
        · intro b hb
          rcases mem_insertSortedByOffset.mp hb with h | h
          · exact h ▸ hyr
          · exact hs.1 b h
        · exact ih hs.2 (fun x hx => hfresh x (List.mem_cons_of_mem y hx))

theorem mem_offset_le_getLastD {l : List DGRec} (hs : offsetSorted l)
    {x : DGRec} (hx : x ∈ l) (d : DGRec) :
    x.mOffset ≤ (l.getLastD d).mOffset := by
  induction l generalizing d with
  | nil => cases hx
  | cons y ys ih =>
      rw [List.getLastD_cons]
      unfold offsetSorted at hs
      rw [List.pairwise_cons] at hs
      rcases List.mem_cons.mp hx with h | h
      · subst h
        have hlast := List.getLastD_mem_cons ys x
        rcases List.mem_cons.mp hlast with h2 | h2
        · rw [h2]
        · exact le_of_lt (hs.1 _ h2)
      · exact ih hs.2 h y

theorem length_insertSortedByOffset (r : DGRec) (l : List DGRec) :
    (insertSortedByOffset r l).length = l.length + 1 := by
  induction l with
  | nil => rfl
  | cons y ys ih =>
      unfold insertSortedByOffset
      split
      · simp
      · simp [ih]

theorem allocate_spec (s : DetailedGlyphStore) (aOffset aCount : Nat)
    (hs : offsetSorted s.mOffsetToIndex)
    (hfresh : ∀ x ∈ s.mOffsetToIndex, x.mOffset ≠ aOffset) :
    (s.Allocate aOffset aCount true true).2 = some s.mDetails.length ∧
    (s.Allocate aOffset aCount true true).1.mDetails =
      s.mDetails ++ List.replicate aCount default ∧
    (∀ x, x ∈ (s.Allocate aOffset aCount true true).1.mOffsetToIndex ↔
      x = ⟨aOffset, s.mDetails.length⟩ ∨ x ∈ s.mOffsetToIndex) ∧
    offsetSorted (s.Allocate aOffset aCount true true).1.mOffsetToIndex ∧
    (s.Allocate aOffset aCount true true).1.mLastUsed = s.mLastUsed ∧
    (s.Allocate aOffset aCount true true).1.mOffsetToIndex.length =
      s.mOffsetToIndex.length + 1 := by
  unfold DetailedGlyphStore.Allocate
  simp only [Bool.not_true, Bool.false_eq_true, if_false, ite_false]
  split
  · rename_i hcond
    rw [Bool.or_eq_true] at hcond
    refine ⟨rfl, rfl, ?_, ?_, rfl, by simp⟩
    · intro x
      simp only [List.mem_append, List.mem_singleton]
      tauto
    · unfold offsetSorted
      rw [List.pairwise_append]
      refine ⟨hs, List.pairwise_singleton _ _, ?_⟩
      intro a ha b hb
      rw [List.mem_singleton] at hb
      subst hb
      rcases hcond with h | h
      · rw [beq_iff_eq, List.length_eq_zero] at h
        rw [h] at ha
        cases ha
      · rw [decide_eq_true_eq] at h
        exact lt_of_le_of_lt (mem_offset_le_getLastD hs ha default) h
  · refine ⟨rfl, rfl, ?_, ?_, rfl, ?_⟩
    · intro x
      rw [mem_insertSortedByOffset]
    · exact insertSortedByOffset_sorted hs hfresh
    · exact length_insertSortedByOffset _ _

theorem offset_inj {l : List DGRec} (hs : offsetSorted l) {a b : DGRec}
    (ha : a ∈ l) (hb : b ∈ l) (hab : a.mOffset = b.mOffset) : a = b := by
  induction l with
  | nil => cases ha
  | cons y ys ih =>
      unfold offsetSorted at hs
      rw [List.pairwise_cons] at hs
      rcases List.mem_cons.mp ha with h1 | h1 <;>
        rcases List.mem_cons.mp hb with h2 | h2
      · rw [h1, h2]
      · exfalso
        have := hs.1 b h2
        rw [h1] at hab
        omega
      · exfalso
        have := hs.1 a h1
        rw [h2] at hab
        omega
      · exact ih hs.2 h1 h2

theorem getD_mem {l : List DGRec} {n : Nat} (h : n < l.length) (d : DGRec) :
    l.getD n d ∈ l := by
  rw [List.getD_eq_getElem?_getD, List.getElem?_eq_getElem h]
  exact List.getElem_mem h

theorem binaryIndexOf_spec {l : List DGRec} {o idx : Nat}
    (hs : offsetSorted l) (hmem : (⟨o, idx⟩ : DGRec) ∈ l) :
    ∃ j, BinaryIndexOf l o = some j ∧ j < l.length ∧
      l.getD j default = ⟨o, idx⟩ := by
  induction l with
  | nil => cases hmem
  | cons y ys ih =>
      unfold offsetSorted at hs
      rw [List.pairwise_cons] at hs
      unfold BinaryIndexOf
      split
      · rename_i hyo
        rw [beq_iff_eq] at hyo
        refine ⟨0, rfl, by simp, ?_⟩
        have hy : y ∈ y :: ys := List.mem_cons_self y ys
        have : y = ⟨o, idx⟩ :=
          offset_inj (by rw [offsetSorted, List.pairwise_cons]; exact hs) hy hmem hyo
        simp [this]
      · rename_i hyo
        rw [beq_iff_eq] at hyo
        have hmem2 : (⟨o, idx⟩ : DGRec) ∈ ys := by
          rcases List.mem_cons.mp hmem with h | h
          · exfalso
            exact hyo (congrArg DGRec.mOffset h.symm)
          · exact h
        obtain ⟨j, hj1, hj2, hj3⟩ := ih hs.2 hmem2
        refine ⟨j + 1, by rw [hj1]; rfl, by simp; omega, by simpa using hj3⟩

theorem binaryIndexOf_lt {l : List DGRec} {o j : Nat}
    (h : BinaryIndexOf l o = some j) : j < l.length := by
  induction l generalizing j with
  | nil => simp [BinaryIndexOf] at h
  | cons y ys ih =>
      unfold BinaryIndexOf at h
      split at h
      · cases h
        simp
      · rw [Option.map_eq_some'] at h
        obtain ⟨j', hj', rfl⟩ := h
        have := ih hj'
        simp
        omega

theorem get_spec (s : DetailedGlyphStore) {o idx : Nat}
    (hs : offsetSorted s.mOffsetToIndex)
    (hlu : s.mLastUsed < s.mOffsetToIndex.length)
    (hmem : (⟨o, idx⟩ : DGRec) ∈ s.mOffsetToIndex) :
    (s.Get o).2 = some idx ∧
    (s.Get o).1.mOffsetToIndex = s.mOffsetToIndex ∧
    (s.Get o).1.mDetails = s.mDetails ∧
    (s.Get o).1.mLastUsed < s.mOffsetToIndex.length := by
  have hlen : 0 < s.mOffsetToIndex.length :=
    List.length_pos.mpr (List.ne_nil_of_mem hmem)
  have key : ∀ p, p < s.mOffsetToIndex.length →
      (s.mOffsetToIndex.getD p default).mOffset = o →
      s.mOffsetToIndex.getD p default = ⟨o, idx⟩ := fun p hp hpo =>
    offset_inj hs (getD_mem hp default) hmem hpo
  simp only [DetailedGlyphStore.Get]
  split_ifs with h1 h2 h3 h4
  · rw [Bool.and_eq_true, decide_eq_true_eq, beq_iff_eq] at h1
    have hp : s.mLastUsed + 1 < s.mOffsetToIndex.length := by omega
    have := key _ hp h1.2
    rw [this]
    exact ⟨rfl, rfl, rfl, hp⟩
  · rw [beq_iff_eq] at h2
    have := key 0 hlen h2
    rw [this]
    exact ⟨rfl, rfl, rfl, hlen⟩
  · rw [beq_iff_eq] at h3
    have := key _ hlu h3
    rw [this]
    exact ⟨rfl, rfl, rfl, hlu⟩
  · rw [Bool.and_eq_true, decide_eq_true_eq, beq_iff_eq] at h4
    have hp : s.mLastUsed - 1 < s.mOffsetToIndex.length := by omega
    have := key _ hp h4.2
    rw [this]
    exact ⟨rfl, rfl, rfl, hp⟩
  · obtain ⟨j, hj1, hj2, hj3⟩ := binaryIndexOf_spec hs hmem
    rw [hj1]
    dsimp only
    rw [hj3]
    exact ⟨rfl, rfl, rfl, hj2⟩

theorem get_preserves (s : DetailedGlyphStore) (x : Nat)
    (hlen : 0 < s.mOffsetToIndex.length)
    (hlu : s.mLastUsed < s.mOffsetToIndex.length) :
    (s.Get x).1.mOffsetToIndex = s.mOffsetToIndex ∧
    (s.Get x).1.mDetails = s.mDetails ∧
    (s.Get x).1.mLastUsed < s.mOffsetToIndex.length := by
  simp only [DetailedGlyphStore.Get]
  split_ifs with h1 h2 h3 h4
  · rw [Bool.and_eq_true, decide_eq_true_eq] at h1
    refine ⟨rfl, rfl, ?_⟩
    show s.mLastUsed + 1 < s.mOffsetToIndex.length
    omega
  · exact ⟨rfl, rfl, hlen⟩
  · exact ⟨rfl, rfl, hlu⟩
  · refine ⟨rfl, rfl, ?_⟩
    show s.mLastUsed - 1 < s.mOffsetToIndex.length
    omega
  · cases hb : BinaryIndexOf s.mOffsetToIndex x with
    | none => exact ⟨rfl, rfl, hlu⟩
    | some j => exact ⟨rfl, rfl, binaryIndexOf_lt hb⟩

theorem applyGets_preserves (gets : List Nat) (s : DetailedGlyphStore)
    (hlen : 0 < s.mOffsetToIndex.length)
    (hlu : s.mLastUsed < s.mOffsetToIndex.length) :
    (applyGets gets s).mOffsetToIndex = s.mOffsetToIndex ∧
    (applyGets gets s).mDetails = s.mDetails ∧
    (applyGets gets s).mLastUsed < s.mOffsetToIndex.length := by
  induction gets generalizing s with
  | nil => exact ⟨rfl, rfl, hlu⟩
  | cons x rest ih =>
      obtain ⟨ht, hd, hl⟩ := get_preserves s x hlen hlu
      have := ih (s.Get x).1 (ht ▸ hlen) (ht ▸ hl)
      unfold applyGets
      refine ⟨?_, ?_, ?_⟩
      · rw [this.1, ht]
      · rw [this.2.1, hd]
      · rw [← ht]
        exact this.2.2

theorem applyAllocs_spec (ops : List (Nat × Nat)) (s : DetailedGlyphStore)
    (hs : offsetSorted s.mOffsetToIndex)
    (hnodup : (ops.map Prod.fst).Nodup)
    (hfresh : ∀ p ∈ ops, ∀ x ∈ s.mOffsetToIndex, x.mOffset ≠ p.1) :
    offsetSorted (applyAllocs ops s).mOffsetToIndex ∧
    (applyAllocs ops s).mLastUsed = s.mLastUsed ∧
    s.mDetails.length ≤ (applyAllocs ops s).mDetails.length ∧
    (∀ x ∈ s.mOffsetToIndex, x ∈ (applyAllocs ops s).mOffsetToIndex) ∧
    (∀ p ∈ ops,
      (⟨p.1, s.mDetails.length + allocStartIndex ops p.1⟩ : DGRec) ∈
        (applyAllocs ops s).mOffsetToIndex) ∧
    (∀ p ∈ ops,
      s.mDetails.length + allocStartIndex ops p.1 + p.2 ≤
        (applyAllocs ops s).mDetails.length) := by
  induction ops generalizing s with
  | nil =>
      refine ⟨hs, rfl, le_refl _, fun x hx => hx, ?_, ?_⟩ <;> intro p hp <;> cases hp
  | cons q rest ih =>
      obtain ⟨o, c⟩ := q
      have hfo : ∀ x ∈ s.mOffsetToIndex, x.mOffset ≠ o :=
        fun x hx => hfresh (o, c) (List.mem_cons_self _ _) x hx
      obtain ⟨ha2, had, hamem, hasort, halu, halen⟩ := allocate_spec s o c hs hfo
      set s1 := (s.Allocate o c true true).1 with hs1
      have hlen1 : s1.mDetails.length = s.mDetails.length + c := by
        rw [had]
        simp
      have hnodup1 : (rest.map Prod.fst).Nodup := (List.nodup_cons.mp hnodup).2
      have honotin : o ∉ rest.map Prod.fst := (List.nodup_cons.mp hnodup).1
      have hfresh1 : ∀ p ∈ rest, ∀ x ∈ s1.mOffsetToIndex, x.mOffset ≠ p.1 := by
        intro p hp x hx
        rcases (hamem x).mp hx with h | h
        · subst h
          simp only
          intro heq
          exact honotin (heq ▸ List.mem_map_of_mem Prod.fst hp)
        · exact hfresh p (List.mem_cons_of_mem _ hp) x h
      obtain ⟨ih1, ih2, ih3, ih4, ih5, ih6⟩ := ih s1 hasort hnodup1 hfresh1
      have happly : applyAllocs ((o, c) :: rest) s = applyAllocs rest s1 := rfl
      rw [happly]
      refine ⟨ih1, ih2.trans halu, ?_, ?_, ?_, ?_⟩
      · calc s.mDetails.length ≤ s1.mDetails.length := by omega
          _ ≤ _ := ih3
      · intro x hx
        exact ih4 x ((hamem x).mpr (Or.inr hx))
      · intro p hp
        rcases List.mem_cons.mp hp with h | h
        · subst h
          simp only [allocStartIndex, if_pos rfl, Nat.add_zero]
          exact ih4 _ ((hamem _).mpr (Or.inl rfl))
        · have hne : p.1 ≠ o := by
            intro heq
            exact honotin (heq ▸ List.mem_map_of_mem Prod.fst h)
          have := ih5 p h
          rw [hlen1] at this
          simpa [allocStartIndex, hne.symm, Nat.add_assoc] using this
      · intro p hp
        rcases List.mem_cons.mp hp with h | h
        · subst h
          simp only [allocStartIndex, if_pos rfl, Nat.add_zero]
          calc s.mDetails.length + c = s1.mDetails.length := hlen1.symm
            _ ≤ _ := ih3
        · have hne : p.1 ≠ o := by
            intro heq
            exact honotin (heq ▸ List.mem_map_of_mem Prod.fst h)
          have := ih6 p h
          rw [hlen1] at this
          simp only [allocStartIndex, if_neg (Ne.symm hne)]
          omega

/-- Claim C2: after any sequence of successful `Allocate` calls with
pairwise-distinct offsets (in order or out of order) and any sequence of
intervening `Get` calls, `Get(o)` for an inserted offset `o` returns the
start index of the very block that the `Allocate` call for `o` returned
(the sum of the record counts allocated before it), and that block of
`count` records lies inside `mDetails`. -/
theorem C2_detailed_glyph_store_get (ops : List (Nat × Nat))
    (hnodup : (ops.map Prod.fst).Nodup)
    (o c : Nat) (hmem : (o, c) ∈ ops) (gets : List Nat) :
    ((applyGets gets (applyAllocs ops DetailedGlyphStore.emptyStore)).Get o).2 =
      some (allocStartIndex ops o) ∧
    allocStartIndex ops o + c ≤
      (applyGets gets (applyAllocs ops DetailedGlyphStore.emptyStore)).mDetails.length := by
  have hempty_sorted : offsetSorted DetailedGlyphStore.emptyStore.mOffsetToIndex :=
    List.Pairwise.nil
  obtain ⟨hsort, hlu0, hmono, hold, hrecs, hblocks⟩ :=
    applyAllocs_spec ops DetailedGlyphStore.emptyStore hempty_sorted hnodup
      (by intro p hp x hx; cases hx)
  set s0 := applyAllocs ops DetailedGlyphStore.emptyStore with hs0
  have hrec := hrecs (o, c) hmem
  have hblock := hblocks (o, c) hmem
  simp only [DetailedGlyphStore.emptyStore, List.length_nil, Nat.zero_add] at hrec hblock
  have hlen : 0 < s0.mOffsetToIndex.length :=
    List.length_pos.mpr (List.ne_nil_of_mem hrec)
  have hlu : s0.mLastUsed < s0.mOffsetToIndex.length := by
    rw [hlu0]
    simpa [DetailedGlyphStore.emptyStore] using hlen
  obtain ⟨hgt, hgd, hglu⟩ := applyGets_preserves gets s0 hlen hlu
  set s1 := applyGets gets s0 with hs1
  have hmem1 : (⟨o, allocStartIndex ops o⟩ : DGRec) ∈ s1.mOffsetToIndex := by
    rw [hgt]
    exact hrec
  have hsort1 : offsetSorted s1.mOffsetToIndex := by rw [hgt]; exact hsort
  have hlu1 : s1.mLastUsed < s1.mOffsetToIndex.length := by rw [hgt]; exact hglu
  obtain ⟨hres, _, _, _⟩ := get_spec s1 hsort1 hlu1 hmem1
  refine ⟨hres, ?_⟩
  rw [hgd]
  simpa [DetailedGlyphStore.emptyStore] using hblock

theorem C2_detailed_glyph_store_get_witness :
    (([(5, 2), (1, 3), (9, 1)].map Prod.fst).Nodup) ∧
    (1, 3) ∈ [(5, 2), (1, 3), (9, 1)] ∧
    ((applyGets [9, 5]
        (applyAllocs [(5, 2), (1, 3), (9, 1)] DetailedGlyphStore.emptyStore)).Get 1).2 =
      some (allocStartIndex [(5, 2), (1, 3), (9, 1)] 1) ∧
    allocStartIndex [(5, 2), (1, 3), (9, 1)] 1 + 3 ≤
      (applyGets [9, 5]
        (applyAllocs [(5, 2), (1, 3), (9, 1)] DetailedGlyphStore.emptyStore)).mDetails.length := by
  have h := C2_detailed_glyph_store_get [(5, 2), (1, 3), (9, 1)] (by decide)
    1 3 (by decide) [9, 5]
  exact ⟨by decide, by decide, h.1, h.2⟩

theorem tb_TEXT_IS_8BIT (i : Nat) :
    Nat.testBit TEXT_IS_8BIT i = decide (5 = i) := by
  have h : TEXT_IS_8BIT = 2 ^ 5 := by decide
  rw [h, Nat.testBit_two_pow]

theorem or_8bit_flag_ne_zero (f : Nat) :
    ((f ||| TEXT_IS_8BIT) &&& TEXT_IS_8BIT) ≠ 0 := by
  intro h
  have htb := congrArg (fun x => Nat.testBit x 5) h
  simp only [Nat.testBit_and, Nat.testBit_or, tb_TEXT_IS_8BIT,
    Nat.zero_testBit] at htb
  simp at htb

theorem getD_replicate {α : Type} {n i : Nat} (a d : α) (h : i < n) :
    (List.replicate n a).getD i d = a := by
  induction n generalizing i with
  | zero => omega
  | succ m ih =>
      cases i with
      | zero => simp [List.replicate]
      | succ k =>
          rw [List.replicate, List.getD_cons_succ]
          exact ih (by omega)

/-- Claim C9: allocation failure is reported as a null result: the 8- and
16-bit `gfxShapedWord::Create` return null exactly when the backing
`moz_malloc` fails, and `DetailedGlyphStore::Allocate` returns null exactly
when growing the record array or the offset-index table fails. -/
theorem C9_allocation_failure_null (aText : List Nat)
    (aRunScript aAppUnitsPerDevUnit : Int) (aFlags : Nat) (aMallocOk : Bool)
    (s : DetailedGlyphStore) (aOffset aCount : Nat) (aDetailsOk aIndexOk : Bool) :
    (gfxShapedWord.Create8 aText aRunScript aAppUnitsPerDevUnit aFlags aMallocOk
        = none ↔ aMallocOk = false) ∧
    (gfxShapedWord.Create16 aText aRunScript aAppUnitsPerDevUnit aFlags aMallocOk
        = none ↔ aMallocOk = false) ∧
    ((s.Allocate aOffset aCount aDetailsOk aIndexOk).2 = none ↔
      (aDetailsOk = false ∨ aIndexOk = false)) := by
  refine ⟨?_, ?_, ?_⟩
  · cases aMallocOk <;> simp [gfxShapedWord.Create8]
  · unfold gfxShapedWord.Create16
    split
    · cases aMallocOk <;> simp [gfxShapedWord.Create8]
    · cases aMallocOk <;> simp
  · cases aDetailsOk <;> cases aIndexOk <;>
      simp [DetailedGlyphStore.Allocate] <;> split <;> simp

/-- Claim C10: a successfully created 8-bit shaped word is flagged 8-bit,
has the requested length, returns each input byte from `GetCharAt`, and has
every CompressedGlyph slot zero — a non-simple record with `IsMissing` true
and glyph count 0; a 16-bit `Create` whose flags contain `TEXT_IS_8BIT`
delegates to the 8-bit path on the narrowed text. -/
theorem C10_create8_initial_state (aText : List Nat)
    (aRunScript aAppUnitsPerDevUnit : Int) (aFlags : Nat) (w : gfxShapedWord)
    (hw : gfxShapedWord.Create8 aText aRunScript aAppUnitsPerDevUnit aFlags true
          = some w) :
    w.TextIs8Bit = true ∧
    w.Length = aText.length ∧
    (∀ i, i < w.Length → w.GetCharAt i = aText.getD i 0) ∧
    (∀ i, i < w.Length → w.mCharacterGlyphs.getD i ⟨0⟩ = ⟨0⟩) ∧
    (⟨0⟩ : CompressedGlyph).IsSimpleGlyph = false ∧
    (⟨0⟩ : CompressedGlyph).IsMissing = true ∧
    (⟨0⟩ : CompressedGlyph).GetGlyphCount = 0 ∧
    gfxShapedWord.Create16 aText aRunScript aAppUnitsPerDevUnit
        (aFlags ||| TEXT_IS_8BIT) true =
      gfxShapedWord.Create8 (lossyNarrow aText) aRunScript aAppUnitsPerDevUnit
        (aFlags ||| TEXT_IS_8BIT) true := by
  simp only [gfxShapedWord.Create8, Bool.not_true, Bool.false_eq_true,
    if_false, ite_false, Option.some.injEq] at hw
  subst hw
  have h8 : (gfxShapedWord.ctor8 aText aRunScript aAppUnitsPerDevUnit
      aFlags).TextIs8Bit = true := by
    unfold gfxShapedWord.TextIs8Bit gfxShapedWord.Flags gfxShapedWord.ctor8
    simp only [bne_iff_ne, ne_eq]
    exact fun h => or_8bit_flag_ne_zero aFlags h
  refine ⟨h8, rfl, ?_, ?_, by decide, by decide, by decide, ?_⟩
  · intro i hi
    unfold gfxShapedWord.GetCharAt
    rw [h8]
    simp [gfxShapedWord.Text8Bit, gfxShapedWord.ctor8]
  · intro i hi
    unfold gfxShapedWord.ctor8 at hi ⊢
    unfold gfxShapedWord.Length at hi
    simp only at hi ⊢
    exact getD_replicate _ _ hi
  · unfold gfxShapedWord.Create16
    have hcond : (((aFlags ||| TEXT_IS_8BIT) &&& TEXT_IS_8BIT) != 0) = true := by
      rw [bne_iff_ne]
      exact or_8bit_flag_ne_zero aFlags
    rw [if_pos hcond]

theorem C10_create8_initial_state_witness :
    gfxShapedWord.Create8 [72, 105, 33] 0 60 0 true =
      some (gfxShapedWord.ctor8 [72, 105, 33] 0 60 0) ∧
    ((gfxShapedWord.ctor8 [72, 105, 33] 0 60 0).TextIs8Bit = true ∧
     (gfxShapedWord.ctor8 [72, 105, 33] 0 60 0).Length = [72, 105, 33].length ∧
     (∀ i, i < (gfxShapedWord.ctor8 [72, 105, 33] 0 60 0).Length →
       (gfxShapedWord.ctor8 [72, 105, 33] 0 60 0).GetCharAt i =
         [72, 105, 33].getD i 0) ∧
     (∀ i, i < (gfxShapedWord.ctor8 [72, 105, 33] 0 60 0).Length →
       (gfxShapedWord.ctor8 [72, 105, 33] 0 60 0).mCharacterGlyphs.getD i ⟨0⟩ =
         ⟨0⟩) ∧
     (⟨0⟩ : CompressedGlyph).IsSimpleGlyph = false ∧
     (⟨0⟩ : CompressedGlyph).IsMissing = true ∧
     (⟨0⟩ : CompressedGlyph).GetGlyphCount = 0 ∧
     gfxShapedWord.Create16 [72, 105, 33] 0 60 (0 ||| TEXT_IS_8BIT) true =
       gfxShapedWord.Create8 (lossyNarrow [72, 105, 33]) 0 60
         (0 ||| TEXT_IS_8BIT) true) :=
  ⟨by decide,
    C10_create8_initial_state [72, 105, 33] 0 60 0
      (gfxShapedWord.ctor8 [72, 105, 33] 0 60 0) (by decide)⟩

theorem mem_ageCachedWords {cache : List (Nat × gfxShapedWord)}
    {k : Nat} {w : gfxShapedWord} :
    (k, w) ∈ gfxFont.AgeCachedWords cache ↔
      ∃ wb : gfxShapedWord, (k, wb) ∈ cache ∧ w = (wb.IncrementAge).1 ∧
        wb.mAgeCounter + 1 < kShapedWordCacheMaxAge := by
  unfold gfxFont.AgeCachedWords
  rw [List.mem_filterMap]
  constructor
  · rintro ⟨⟨k2, wb⟩, hmem, hf⟩
    simp only [gfxShapedWord.IncrementAge, kShapedWordCacheMaxAge] at hf
    split at hf
    · cases hf
    · rename_i hage
      rw [Option.some.injEq, Prod.mk.injEq] at hf
      obtain ⟨hk, hw⟩ := hf
      subst hk
      refine ⟨wb, hmem, hw.symm, ?_⟩
      simp only [kShapedWordCacheMaxAge]
      omega
  · rintro ⟨wb, hmem, hw, hage⟩
    refine ⟨(k, wb), hmem, ?_⟩
    simp only [gfxShapedWord.IncrementAge, kShapedWordCacheMaxAge] at hage ⊢
    rw [if_neg (by omega)]
    rw [hw]
    rfl

theorem nodup_key_unique {cache : List (Nat × gfxShapedWord)}
    (hnd : (cache.map Prod.fst).Nodup) {k : Nat} {w w' : gfxShapedWord}
    (h1 : (k, w) ∈ cache) (h2 : (k, w') ∈ cache) : w = w' := by
  induction cache with
  | nil => cases h1
  | cons e rest ih =>
      rw [List.map_cons, List.nodup_cons] at hnd
      rcases List.mem_cons.mp h1 with ha | ha <;>
        rcases List.mem_cons.mp h2 with hb | hb
      · exact congrArg Prod.snd (ha.trans hb.symm)
      · exfalso
        have hk : e.1 = k := by rw [← ha]
        apply hnd.1
        rw [hk]
        exact List.mem_map.mpr ⟨(k, w'), hb, rfl⟩
      · exfalso
        have hk : e.1 = k := by rw [← hb]
        apply hnd.1
        rw [hk]
        exact List.mem_map.mpr ⟨(k, w), ha, rfl⟩
      · exact ih hnd.2 ha hb

/-- Claim C5: each `AgeCachedWords` pass increments a surviving cached
word's age by one; a cache hit (`GetShapedWord`) resets the entry's age to
zero and leaves the reset entry in the cache; and a word that reaches the
maximum of `kShapedWordCacheMaxAge = 3` aging passes without an
intervening lookup is absent from the cache. -/
theorem C5_word_cache_aging (cache : List (Nat × gfxShapedWord)) (k : Nat)
    (w : gfxShapedWord) :
    ((k, w) ∈ cache → w.mAgeCounter + 1 < kShapedWordCacheMaxAge →
      (k, (w.IncrementAge).1) ∈ gfxFont.AgeCachedWords cache) ∧
    ((k, w) ∈ cache → kShapedWordCacheMaxAge ≤ w.mAgeCounter + 1 →
      (cache.map Prod.fst).Nodup →
      ∀ w2, (k, w2) ∉ gfxFont.AgeCachedWords cache) ∧
    (cache.find? (fun e => e.1 == k) = some (k, w) →
      (gfxFont.GetShapedWord cache k).2 = some w.ResetAge ∧
      (k, w.ResetAge) ∈ (gfxFont.GetShapedWord cache k).1) ∧
    (∀ w3, (k, w3) ∉
      gfxFont.AgeCachedWords
        (gfxFont.AgeCachedWords (gfxFont.AgeCachedWords cache))) := by
  refine ⟨?_, ?_, ?_, ?_⟩
  · intro hmem hage
    exact mem_ageCachedWords.mpr ⟨w, hmem, rfl, hage⟩
  · intro hmem hage hnd w2 hcontra
    obtain ⟨wb, hmemb, _, hageb⟩ := mem_ageCachedWords.mp hcontra
    have := nodup_key_unique hnd hmem hmemb
    subst this
    omega
  · intro hfind
    have hmem : (k, w) ∈ cache := List.mem_of_find?_eq_some hfind
    unfold gfxFont.GetShapedWord
    rw [hfind]
    refine ⟨rfl, ?_⟩
    have : (k, w.ResetAge) =
        (fun e2 : Nat × gfxShapedWord =>
          if e2.1 == k then (e2.1, e2.2.ResetAge) else e2) (k, w) := by
      simp
    rw [this]
    exact List.mem_map_of_mem _ hmem
  · intro w3 hcontra
    obtain ⟨w2, hm2, _, ha2⟩ := mem_ageCachedWords.mp hcontra
    obtain ⟨w1, hm1, hw2, ha1⟩ := mem_ageCachedWords.mp hm2
    obtain ⟨w0, hm0, hw1, ha0⟩ := mem_ageCachedWords.mp hm1
    simp only [gfxShapedWord.IncrementAge] at hw1 hw2
    rw [hw1] at hw2
    rw [hw2] at ha2
    simp only [kShapedWordCacheMaxAge] at ha0 ha1 ha2
    omega

theorem C5_word_cache_aging_witness :
    ((1, gfxShapedWord.ctor8 [65] 0 60 0) ∈
      [(1, gfxShapedWord.ctor8 [65] 0 60 0)]) ∧
    ((gfxShapedWord.ctor8 [65] 0 60 0).mAgeCounter + 1 <
      kShapedWordCacheMaxAge) ∧
    ((1, ((gfxShapedWord.ctor8 [65] 0 60 0).IncrementAge).1) ∈
      gfxFont.AgeCachedWords [(1, gfxShapedWord.ctor8 [65] 0 60 0)]) ∧
    (∀ w2, (1, w2) ∉ gfxFont.AgeCachedWords
        [(1, { gfxShapedWord.ctor8 [65] 0 60 0 with mAgeCounter := 2 })]) ∧
    ((gfxFont.GetShapedWord [(1, gfxShapedWord.ctor8 [65] 0 60 0)] 1).2 =
      some (gfxShapedWord.ctor8 [65] 0 60 0).ResetAge) ∧
    (∀ w3, (1, w3) ∉ gfxFont.AgeCachedWords (gfxFont.AgeCachedWords
        (gfxFont.AgeCachedWords [(1, gfxShapedWord.ctor8 [65] 0 60 0)]))) := by
  have h := C5_word_cache_aging [(1, gfxShapedWord.ctor8 [65] 0 60 0)] 1
      (gfxShapedWord.ctor8 [65] 0 60 0)
  have h2 := C5_word_cache_aging
      [(1, { gfxShapedWord.ctor8 [65] 0 60 0 with mAgeCounter := 2 })] 1
      { gfxShapedWord.ctor8 [65] 0 60 0 with mAgeCounter := 2 }
  exact ⟨by decide, by decide,
    h.1 (by decide) (by decide),
    h2.2.1 (by decide) (by decide) (by decide),
    (h.2.2.1 (by decide)).1,
    h.2.2.2⟩

/-- Claim C4: while the global font cache exists, releasing the last
reference does not destroy the font but hands it to the cache's expiration
tracker at generation 0; `AddRef` on a tracked font removes it from the
tracker and increments the refcount; and a tracked font that survives all
3 tracker generations (fired at 10-second intervals) without a new
reference is destroyed. -/
theorem C4_font_cache_expiration (f : FontState) :
    (f.mRefCnt = 1 → f.mDestroyed = false →
      (gfxFont.Release true f).mDestroyed = false ∧
      (gfxFont.Release true f).mTrackedGeneration = some 0) ∧
    (f.mTrackedGeneration.isSome = true →
      (gfxFont.AddRef f).mTrackedGeneration = none ∧
      (gfxFont.AddRef f).mRefCnt = f.mRefCnt + 1) ∧
    (f.mTrackedGeneration = some 0 →
      (gfxFontCache.AgeOneGeneration (gfxFontCache.AgeOneGeneration
        (gfxFontCache.AgeOneGeneration f))).mDestroyed = true) := by
  refine ⟨?_, ?_, ?_⟩
  · intro h1 h2
    simp [gfxFont.Release, gfxFont.NotifyReleased, h1, h2]
  · intro h
    simp [gfxFont.AddRef, h]
  · intro h
    simp [gfxFontCache.AgeOneGeneration, h, kFontTrackerGenerations]

theorem C4_font_cache_expiration_witness :
    ((⟨1, some 0, false⟩ : FontState).mRefCnt = 1) ∧
    ((⟨1, some 0, false⟩ : FontState).mDestroyed = false) ∧
    ((gfxFont.Release true ⟨1, some 0, false⟩).mDestroyed = false ∧
      (gfxFont.Release true ⟨1, some 0, false⟩).mTrackedGeneration = some 0) ∧
    ((gfxFont.AddRef ⟨1, some 0, false⟩).mTrackedGeneration = none ∧
      (gfxFont.AddRef ⟨1, some 0, false⟩).mRefCnt =
        (⟨1, some 0, false⟩ : FontState).mRefCnt + 1) ∧
    ((gfxFontCache.AgeOneGeneration (gfxFontCache.AgeOneGeneration
        (gfxFontCache.AgeOneGeneration ⟨1, some 0, false⟩))).mDestroyed = true) := by
  have h := C4_font_cache_expiration ⟨1, some 0, false⟩
  exact ⟨by decide, by decide, h.1 (by decide) (by decide),
    h.2.1 (by decide), h.2.2 (by decide)⟩

theorem getD_set_self {α : Type} (l : List α) (i : Nat) (a d : α)
    (h : i < l.length) : (l.set i a).getD i d = a := by
  rw [List.getD_eq_getElem?_getD, List.getElem?_set_self h]
  rfl

theorem getD_append_at_length {α : Type} (l l2 : List α) (a d : α) :
    (l ++ a :: l2).getD l.length d = a := by
  induction l with
  | nil => rfl
  | cons x xs ih => simpa using ih

theorem take_append_replicate {α : Type} (l : List α) (n : Nat) (a : α) :
    (l ++ List.replicate n a).take l.length = l := by
  rw [List.take_append_of_le_length (le_refl _), List.take_length]

theorem drop_all_of_le {α : Type} (l : List α) (n : Nat)
    (h : l.length ≤ n) : l.drop n = [] := by
  rw [List.drop_eq_nil_iff_le]
  exact h

theorem store_promote_get (s : DetailedGlyphStore) (aIndex : Nat)
    (d : DetailedGlyph)
    (hsort : offsetSorted s.mOffsetToIndex)
    (hfresh : ∀ x ∈ s.mOffsetToIndex, x.mOffset ≠ aIndex)
    (hlu : s.mLastUsed = 0 ∨ s.mLastUsed < s.mOffsetToIndex.length) :
    ((({ (s.Allocate aIndex 1 true true).1 with
          mDetails := s.mDetails ++ [d] } : DetailedGlyphStore).Get aIndex).2 =
      some s.mDetails.length) ∧
    (s.mDetails ++ [d]).getD s.mDetails.length default = d := by
  obtain ⟨ha2, had, hamem, hasort, halu, halen⟩ :=
    allocate_spec s aIndex 1 hsort hfresh
  set s1 := (s.Allocate aIndex 1 true true).1 with hs1
  set s2 : DetailedGlyphStore := { s1 with mDetails := s.mDetails ++ [d] }
    with hs2
  have htab : s2.mOffsetToIndex = s1.mOffsetToIndex := rfl
  have hlu2 : s2.mLastUsed = s.mLastUsed := halu
  have hmem2 : (⟨aIndex, s.mDetails.length⟩ : DGRec) ∈ s2.mOffsetToIndex := by
    rw [htab]
    exact (hamem _).mpr (Or.inl rfl)
  have hsort2 : offsetSorted s2.mOffsetToIndex := by
    rw [htab]
    exact hasort
  have hlen2 : 0 < s2.mOffsetToIndex.length :=
    List.length_pos.mpr (List.ne_nil_of_mem hmem2)
  have hlub : s2.mLastUsed < s2.mOffsetToIndex.length := by
    rw [hlu2, htab, halen]
    rcases hlu with h | h <;> omega
  obtain ⟨hres, _, _, _⟩ := get_spec s2 hsort2 hlub hmem2
  exact ⟨hres, getD_append_at_length _ _ _ _⟩

theorem allocate_ret (s : DetailedGlyphStore) (aOffset aCount : Nat) :
    (s.Allocate aOffset aCount true true).2 = some s.mDetails.length ∧
    (s.Allocate aOffset aCount true true).1.mDetails =
      s.mDetails ++ List.replicate aCount default := by
  unfold DetailedGlyphStore.Allocate
  simp only [Bool.not_true, Bool.false_eq_true, if_false, ite_false]
  split <;> exact ⟨rfl, rfl⟩

theorem setGlyphs_promote (t : gfxTextRun) (aIndex : Nat) (d : DetailedGlyph) :
    t.SetGlyphs aIndex ((⟨0⟩ : CompressedGlyph).SetComplex true true 1) [d] =
      { mCharacterGlyphs :=
          t.mCharacterGlyphs.set aIndex
            ((⟨0⟩ : CompressedGlyph).SetComplex true true 1),
        mDetailedGlyphs :=
          { (t.mDetailedGlyphs.Allocate aIndex 1 true true).1 with
              mDetails := t.mDetailedGlyphs.mDetails ++ [d] } } := by
  obtain ⟨hret, hdet⟩ := allocate_ret t.mDetailedGlyphs aIndex 1
  unfold gfxTextRun.SetGlyphs gfxTextRun.AllocateDetailedGlyphs
  rw [show ((⟨0⟩ : CompressedGlyph).SetComplex true true 1).GetGlyphCount = 1
    from by decide]
  simp only [Nat.lt_irrefl, Nat.zero_lt_one, if_true, hret, hdet,
    Option.getD_some]
  congr 1
  rw [take_append_replicate]
  rw [drop_all_of_le _ _ (by simp)]
  simp

/-- Claim C3 (tab half, helper): the explicit result shape of `SetIsTab`
on a position holding a simple glyph. -/
theorem setIsTab_simple_shape (t : gfxTextRun) (aIndex : Nat)
    (hlen : aIndex < t.mCharacterGlyphs.length)
    (hsimple : (t.mCharacterGlyphs.getD aIndex ⟨0⟩).IsSimpleGlyph = true) :
    t.SetIsTab aIndex =
      { mCharacterGlyphs :=
          (t.mCharacterGlyphs.set aIndex
            ((⟨0⟩ : CompressedGlyph).SetComplex true true 1)).set aIndex
            (((⟨0⟩ : CompressedGlyph).SetComplex true true 1).SetIsTab),
        mDetailedGlyphs :=
          { (t.mDetailedGlyphs.Allocate aIndex 1 true true).1 with
              mDetails := t.mDetailedGlyphs.mDetails ++
                [⟨(t.mCharacterGlyphs.getD aIndex ⟨0⟩).GetSimpleGlyph,
                  ((t.mCharacterGlyphs.getD aIndex ⟨0⟩).GetSimpleAdvance : Int),
                  0, 0⟩] } } := by
  simp only [gfxTextRun.SetIsTab]
  rw [if_pos hsimple, setGlyphs_promote]
  congr 1
  rw [getD_set_self _ _ _ _ hlen]

/-- Claim C3 (newline half, helper): the explicit result shape of
`SetIsNewline` on a position holding a simple glyph. -/
theorem setIsNewline_simple_shape (t : gfxTextRun) (aIndex : Nat)
    (hlen : aIndex < t.mCharacterGlyphs.length)
    (hsimple : (t.mCharacterGlyphs.getD aIndex ⟨0⟩).IsSimpleGlyph = true) :
    t.SetIsNewline aIndex =
      { mCharacterGlyphs :=
          (t.mCharacterGlyphs.set aIndex
            ((⟨0⟩ : CompressedGlyph).SetComplex true true 1)).set aIndex
            (((⟨0⟩ : CompressedGlyph).SetComplex true true 1).SetIsNewline),
        mDetailedGlyphs :=
          { (t.mDetailedGlyphs.Allocate aIndex 1 true true).1 with
              mDetails := t.mDetailedGlyphs.mDetails ++
                [⟨(t.mCharacterGlyphs.getD aIndex ⟨0⟩).GetSimpleGlyph,
                  ((t.mCharacterGlyphs.getD aIndex ⟨0⟩).GetSimpleAdvance : Int),
                  0, 0⟩] } } := by
  simp only [gfxTextRun.SetIsNewline]
  rw [if_pos hsimple, setGlyphs_promote]
  congr 1
  rw [getD_set_self _ _ _ _ hlen]

/-- Claim C3: at a position holding a simple glyph, `SetIsTab` (resp.
`SetIsNewline`) converts the record to complex form with glyph count 1
whose single DetailedGlyph carries exactly the prior simple glyph id as
`mGlyphID` and the prior simple advance as `mAdvance` with zero offsets,
and afterwards `CharIsTab` (resp. `CharIsNewline`) holds at the position. -/
theorem C3_tab_newline_promotion (t : gfxTextRun) (aIndex : Nat)
    (hlen : aIndex < t.mCharacterGlyphs.length)
    (hsimple : (t.mCharacterGlyphs.getD aIndex ⟨0⟩).IsSimpleGlyph = true)
    (hsort : offsetSorted t.mDetailedGlyphs.mOffsetToIndex)
    (hfresh : ∀ x ∈ t.mDetailedGlyphs.mOffsetToIndex, x.mOffset ≠ aIndex)
    (hlu : t.mDetailedGlyphs.mLastUsed = 0 ∨
      t.mDetailedGlyphs.mLastUsed < t.mDetailedGlyphs.mOffsetToIndex.length) :
    ((t.SetIsTab aIndex).CharIsTab aIndex = true ∧
     ((t.SetIsTab aIndex).mCharacterGlyphs.getD aIndex ⟨0⟩).IsSimpleGlyph =
       false ∧
     ((t.SetIsTab aIndex).mCharacterGlyphs.getD aIndex ⟨0⟩).GetGlyphCount = 1 ∧
     ((t.SetIsTab aIndex).mDetailedGlyphs.Get aIndex).2 =
       some t.mDetailedGlyphs.mDetails.length ∧
     (t.SetIsTab aIndex).mDetailedGlyphs.mDetails.getD
         t.mDetailedGlyphs.mDetails.length default =
       ⟨(t.mCharacterGlyphs.getD aIndex ⟨0⟩).GetSimpleGlyph,
        ((t.mCharacterGlyphs.getD aIndex ⟨0⟩).GetSimpleAdvance : Int), 0, 0⟩) ∧
    ((t.SetIsNewline aIndex).CharIsNewline aIndex = true ∧
     ((t.SetIsNewline aIndex).mCharacterGlyphs.getD aIndex ⟨0⟩).IsSimpleGlyph =
       false ∧
     ((t.SetIsNewline aIndex).mCharacterGlyphs.getD aIndex ⟨0⟩).GetGlyphCount =
       1 ∧
     ((t.SetIsNewline aIndex).mDetailedGlyphs.Get aIndex).2 =
       some t.mDetailedGlyphs.mDetails.length ∧
     (t.SetIsNewline aIndex).mDetailedGlyphs.mDetails.getD
         t.mDetailedGlyphs.mDetails.length default =
       ⟨(t.mCharacterGlyphs.getD aIndex ⟨0⟩).GetSimpleGlyph,
        ((t.mCharacterGlyphs.getD aIndex ⟨0⟩).GetSimpleAdvance : Int), 0, 0⟩) := by
  have hstore := store_promote_get t.mDetailedGlyphs aIndex
      ⟨(t.mCharacterGlyphs.getD aIndex ⟨0⟩).GetSimpleGlyph,
       ((t.mCharacterGlyphs.getD aIndex ⟨0⟩).GetSimpleAdvance : Int), 0, 0⟩
      hsort hfresh hlu
  have hlen1 : aIndex <
      (t.mCharacterGlyphs.set aIndex
        ((⟨0⟩ : CompressedGlyph).SetComplex true true 1)).length := by
    simpa using hlen
  constructor
  · rw [setIsTab_simple_shape t aIndex hlen hsimple]
    unfold gfxTextRun.CharIsTab
    dsimp only
    rw [getD_set_self _ _ _ _ hlen1]
    exact ⟨by decide, by decide, by decide, hstore.1, hstore.2⟩
  · rw [setIsNewline_simple_shape t aIndex hlen hsimple]
    unfold gfxTextRun.CharIsNewline
    dsimp only
    rw [getD_set_self _ _ _ _ hlen1]
    exact ⟨by decide, by decide, by decide, hstore.1, hstore.2⟩

theorem C3_tab_newline_promotion_witness :
    (0 < sampleTextRun.mCharacterGlyphs.length) ∧
    ((sampleTextRun.mCharacterGlyphs.getD 0 ⟨0⟩).IsSimpleGlyph = true) ∧
    (((sampleTextRun.SetIsTab 0).CharIsTab 0 = true ∧
      ((sampleTextRun.SetIsTab 0).mCharacterGlyphs.getD 0 ⟨0⟩).IsSimpleGlyph =
        false ∧
      ((sampleTextRun.SetIsTab 0).mCharacterGlyphs.getD 0 ⟨0⟩).GetGlyphCount =
        1 ∧
      ((sampleTextRun.SetIsTab 0).mDetailedGlyphs.Get 0).2 =
        some sampleTextRun.mDetailedGlyphs.mDetails.length ∧
      (sampleTextRun.SetIsTab 0).mDetailedGlyphs.mDetails.getD
          sampleTextRun.mDetailedGlyphs.mDetails.length default =
        ⟨(sampleTextRun.mCharacterGlyphs.getD 0 ⟨0⟩).GetSimpleGlyph,
         ((sampleTextRun.mCharacterGlyphs.getD 0 ⟨0⟩).GetSimpleAdvance : Int),
         0, 0⟩) ∧
     ((sampleTextRun.SetIsNewline 0).CharIsNewline 0 = true ∧
      ((sampleTextRun.SetIsNewline 0).mCharacterGlyphs.getD 0
          ⟨0⟩).IsSimpleGlyph = false ∧
      ((sampleTextRun.SetIsNewline 0).mCharacterGlyphs.getD 0
          ⟨0⟩).GetGlyphCount = 1 ∧
      ((sampleTextRun.SetIsNewline 0).mDetailedGlyphs.Get 0).2 =
        some sampleTextRun.mDetailedGlyphs.mDetails.length ∧
      (sampleTextRun.SetIsNewline 0).mDetailedGlyphs.mDetails.getD
          sampleTextRun.mDetailedGlyphs.mDetails.length default =
        ⟨(sampleTextRun.mCharacterGlyphs.getD 0 ⟨0⟩).GetSimpleGlyph,
         ((sampleTextRun.mCharacterGlyphs.getD 0 ⟨0⟩).GetSimpleAdvance : Int),
         0, 0⟩)) := by
  have h := C3_tab_newline_promotion sampleTextRun 0 (by decide) (by decide)
    (by unfold offsetSorted sampleTextRun DetailedGlyphStore.emptyStore
        exact List.Pairwise.nil)
    (by intro x hx
        simp [sampleTextRun, DetailedGlyphStore.emptyStore] at hx)
    (Or.inl rfl)
  exact ⟨by decide, by decide, h⟩

theorem and_block_mask (g : Nat) : g &&& (BLOCK_SIZE - 1) = g % 128 := by
  rw [show BLOCK_SIZE - 1 = 2 ^ 7 - 1 from by decide,
    Nat.and_pow_two_sub_one_eq_mod]

theorem shiftRight_block (g : Nat) : g >>> BLOCK_SIZE_BITS = g / 128 := by
  rw [BLOCK_SIZE_BITS, Nat.shiftRight_eq_div_pow]

theorem MakeSingle_offset (off w : Nat) (hoff : off < 128) :
    GetGlyphOffset (MakeSingle off w) = off := by
  unfold GetGlyphOffset MakeSingle
  rw [show ((1 : Nat) <<< BLOCK_SIZE_BITS) - 1 = 2 ^ 7 - 1 from by decide,
    Nat.and_pow_two_sub_one_eq_mod, Nat.shiftRight_eq_div_pow,
    Nat.shiftLeft_eq, Nat.shiftLeft_eq]
  simp only [show (2 : Nat) ^ (1 + BLOCK_SIZE_BITS) = 256 from by decide,
    show (2 : Nat) ^ 1 = 2 from by decide,
    show (2 : Nat) ^ 7 = 128 from by decide]
  omega

theorem MakeSingle_width (off w : Nat) (hoff : off < 128) :
    GetWidth (MakeSingle off w) = w := by
  unfold GetWidth MakeSingle
  rw [Nat.shiftRight_eq_div_pow, Nat.shiftLeft_eq, Nat.shiftLeft_eq]
  simp only [show (2 : Nat) ^ (1 + BLOCK_SIZE_BITS) = 256 from by decide,
    show (2 : Nat) ^ 1 = 2 from by decide]
  omega

theorem getGlyphOffset_lt (bits : Nat) : GetGlyphOffset bits < 128 := by
  unfold GetGlyphOffset
  rw [show ((1 : Nat) <<< BLOCK_SIZE_BITS) - 1 = 2 ^ 7 - 1 from by decide,
    Nat.and_pow_two_sub_one_eq_mod]
  exact Nat.mod_lt _ (by norm_num)

theorem getD_set_ne {α : Type} (l : List α) {i j : Nat} (a d : α)
    (h : i ≠ j) : (l.set i a).getD j d = l.getD j d := by
  rw [List.getD_eq_getElem?_getD, List.getD_eq_getElem?_getD,
    List.getElem?_set_ne h]

theorem getD_replicate_default {α : Type} (k j : Nat) (a : α) :
    (List.replicate k a).getD j a = a := by
  rw [List.getD_eq_getElem?_getD, List.getElem?_replicate]
  split <;> rfl

theorem getD_append_replicate_same {α : Type} (l : List α) (k j : Nat)
    (a : α) : (l ++ List.replicate k a).getD j a = l.getD j a := by
  by_cases h : j < l.length
  · rw [List.getD_eq_getElem?_getD, List.getD_eq_getElem?_getD,
      List.getElem?_append_left h]
  · rw [List.getD_eq_getElem?_getD, List.getD_eq_getElem?_getD,
      List.getElem?_append_right (by omega)]
    have h2 : l[j]? = none := List.getElem?_eq_none (by omega)
    rw [h2, List.getElem?_replicate]
    split <;> rfl

theorem extendBlocks_lt (l : List PtrBlock) (block : Nat) :
    block < (extendBlocks l block).length := by
  unfold extendBlocks
  split
  · rename_i h
    simp only [List.length_append, List.length_replicate]
    omega
  · omega

theorem extendBlocks_getD (l : List PtrBlock) (block j : Nat) :
    (extendBlocks l block).getD j PtrBlock.nullBits =
      l.getD j PtrBlock.nullBits := by
  unfold extendBlocks
  split
  · exact getD_append_replicate_same l _ j PtrBlock.nullBits
  · rfl

theorem extendBlocks_mem {l : List PtrBlock} {block : Nat} {b : PtrBlock}
    (h : b ∈ extendBlocks l block) : b ∈ l ∨ b = PtrBlock.nullBits := by
  unfold extendBlocks at h
  split at h
  · rcases List.mem_append.mp h with h2 | h2
    · exact Or.inl h2
    · exact Or.inr (List.eq_of_mem_replicate h2)
  · exact Or.inl h

theorem getD_mem_of_lt {α : Type} {l : List α} {n : Nat} (h : n < l.length)
    (d : α) : l.getD n d ∈ l := by
  rw [List.getD_eq_getElem?_getD, List.getElem?_eq_getElem h]
  exact List.getElem_mem h

theorem set_wf {s : GlyphWidths} (hwf : widthsWF s) (g w : Nat) :
    widthsWF (s.Set g w) := by
  intro b hb ws hbw
  simp only [GlyphWidths.Set] at hb
  rcases List.mem_or_eq_of_mem_set hb with h | h
  · rcases extendBlocks_mem h with h2 | h2
    · exact hwf b h2 ws hbw
    · rw [h2] at hbw
      cases hbw
  · subst h
    unfold newBlockFor at hbw
    split at hbw
    · cases hbw
    · rename_i bits hbits
      split at hbw
      · cases hbw
      · rw [PtrBlock.widthsArray.injEq] at hbw
        rw [← hbw]
        simp [BLOCK_SIZE]
    · rename_i ws0 hws0
      rw [PtrBlock.widthsArray.injEq] at hbw
      rw [← hbw]
      simp only [List.length_set]
      by_cases hblt : g >>> BLOCK_SIZE_BITS < s.mBlocks.length
      · have hmem0 : PtrBlock.widthsArray ws0 ∈ s.mBlocks := by
          rw [extendBlocks_getD] at hws0
          rw [← hws0]
          exact getD_mem_of_lt hblt _
        exact hwf _ hmem0 ws0 rfl
      · exfalso
        rw [extendBlocks_getD] at hws0
        have : s.mBlocks.getD (g >>> BLOCK_SIZE_BITS) PtrBlock.nullBits =
            PtrBlock.nullBits := by
          rw [List.getD_eq_getElem?_getD, List.getElem?_eq_none (by omega)]
          rfl
        rw [this] at hws0
        cases hws0

theorem get_set_self {s : GlyphWidths} (hwf : widthsWF s) (g w : Nat) :
    (s.Set g w).Get g = w := by
  have hinb : g &&& (BLOCK_SIZE - 1) < 128 := by
    rw [and_block_mask]
    exact Nat.mod_lt _ (by norm_num)
  simp only [GlyphWidths.Get, GlyphWidths.Set]
  rw [if_neg (by
    simp only [List.length_set]
    have := extendBlocks_lt s.mBlocks (g >>> BLOCK_SIZE_BITS)
    omega)]
  rw [getD_set_self _ _ _ _ (extendBlocks_lt s.mBlocks (g >>> BLOCK_SIZE_BITS))]
  cases hold : (extendBlocks s.mBlocks
      (g >>> BLOCK_SIZE_BITS)).getD (g >>> BLOCK_SIZE_BITS) PtrBlock.nullBits with
  | nullBits =>
      simp only [newBlockFor]
      rw [if_neg (by
        rw [bne_iff_ne, ne_eq, MakeSingle_offset _ _ hinb]
        simp)]
      exact MakeSingle_width _ _ hinb
  | single bits =>
      simp only [newBlockFor]
      by_cases hoff : GetGlyphOffset bits == g &&& (BLOCK_SIZE - 1)
      · rw [if_pos hoff]
        simp only
        rw [if_neg (by
          rw [bne_iff_ne, ne_eq, MakeSingle_offset _ _ hinb]
          simp)]
        exact MakeSingle_width _ _ hinb
      · rw [if_neg hoff]
        simp only
        rw [getD_set_self _ _ _ _ (by
          simp only [List.length_set, List.length_replicate]
          rw [show BLOCK_SIZE = 128 from by decide]
          exact hinb)]
  | widthsArray ws0 =>
      simp only [newBlockFor]
      have hlen0 : ws0.length = BLOCK_SIZE := by
        by_cases hblt : g >>> BLOCK_SIZE_BITS < s.mBlocks.length
        · have hmem0 : PtrBlock.widthsArray ws0 ∈ s.mBlocks := by
            rw [extendBlocks_getD] at hold
            rw [← hold]
            exact getD_mem_of_lt hblt _
          exact hwf _ hmem0 ws0 rfl
        · exfalso
          rw [extendBlocks_getD] at hold
          have hnull : s.mBlocks.getD (g >>> BLOCK_SIZE_BITS) PtrBlock.nullBits =
              PtrBlock.nullBits := by
            rw [List.getD_eq_getElem?_getD, List.getElem?_eq_none (by omega)]
            rfl
          rw [hnull] at hold
          cases hold
      rw [getD_set_self _ _ _ _ (by
        rw [hlen0, show BLOCK_SIZE = 128 from by decide]
        exact hinb)]

theorem getD_out_of_range {α : Type} {l : List α} {j : Nat}
    (h : l.length ≤ j) (d : α) : l.getD j d = d := by
  rw [List.getD_eq_getElem?_getD, List.getElem?_eq_none h]
  rfl

theorem extendBlocks_len_ge (l : List PtrBlock) (block : Nat) :
    l.length ≤ (extendBlocks l block).length := by
  unfold extendBlocks
  split
  · simp
  · exact le_refl _

theorem get_set_ne {s : GlyphWidths} (hwf : widthsWF s) {g g2 : Nat}
    (w : Nat) (hne : g2 ≠ g) : (s.Set g w).Get g2 = s.Get g2 := by
  by_cases hbsame : g >>> BLOCK_SIZE_BITS = g2 >>> BLOCK_SIZE_BITS
  · -- same block, different in-block offset
    have hinb : g &&& (BLOCK_SIZE - 1) < 128 := by
      rw [and_block_mask]
      exact Nat.mod_lt _ (by norm_num)
    have hinb2 : g2 &&& (BLOCK_SIZE - 1) < 128 := by
      rw [and_block_mask]
      exact Nat.mod_lt _ (by norm_num)
    have hinbne : g &&& (BLOCK_SIZE - 1) ≠ g2 &&& (BLOCK_SIZE - 1) := by
      rw [and_block_mask, and_block_mask]
      rw [shiftRight_block, shiftRight_block] at hbsame
      omega
    have hb2 : g2 >>> BLOCK_SIZE_BITS = g >>> BLOCK_SIZE_BITS := hbsame.symm
    simp only [GlyphWidths.Get, GlyphWidths.Set]
    rw [hb2]
    rw [if_neg (by
      simp only [List.length_set]
      have := extendBlocks_lt s.mBlocks (g >>> BLOCK_SIZE_BITS)
      omega)]
    rw [getD_set_self _ _ _ _
      (extendBlocks_lt s.mBlocks (g >>> BLOCK_SIZE_BITS))]
    cases hold : (extendBlocks s.mBlocks
        (g >>> BLOCK_SIZE_BITS)).getD (g >>> BLOCK_SIZE_BITS)
        PtrBlock.nullBits with
    | nullBits =>
        simp only [newBlockFor]
        rw [if_pos (by
          rw [bne_iff_ne, ne_eq, MakeSingle_offset _ _ hinb]
          exact hinbne)]
        by_cases hgl : s.mBlocks.length ≤ g >>> BLOCK_SIZE_BITS
        · rw [if_pos hgl]
        · rw [if_neg hgl]
          rw [show s.mBlocks.getD (g >>> BLOCK_SIZE_BITS) PtrBlock.nullBits =
              PtrBlock.nullBits from by
            rw [← extendBlocks_getD s.mBlocks (g >>> BLOCK_SIZE_BITS)]
            exact hold]
    | single bits =>
        have hblt : g >>> BLOCK_SIZE_BITS < s.mBlocks.length := by
          by_contra hc
          rw [extendBlocks_getD, getD_out_of_range (by omega)] at hold
          cases hold
        have horig : s.mBlocks.getD (g >>> BLOCK_SIZE_BITS) PtrBlock.nullBits =
            PtrBlock.single bits := by
          rw [← extendBlocks_getD s.mBlocks (g >>> BLOCK_SIZE_BITS)]
          exact hold
        rw [if_neg (by omega), horig]
        simp only [newBlockFor]
        by_cases hoff : GetGlyphOffset bits == g &&& (BLOCK_SIZE - 1)
        · rw [if_pos hoff]
          simp only
          rw [if_pos (by
            rw [bne_iff_ne, ne_eq, MakeSingle_offset _ _ hinb]
            exact hinbne)]
          rw [if_pos (by
            rw [bne_iff_ne, ne_eq]
            rw [beq_iff_eq] at hoff
            rw [hoff]
            exact hinbne)]
        · rw [if_neg hoff]
          simp only
          rw [getD_set_ne _ _ _ hinbne]
          by_cases hview : GetGlyphOffset bits = g2 &&& (BLOCK_SIZE - 1)
          · rw [if_neg (by
              rw [bne_iff_ne, ne_eq]
              simp [hview])]
            rw [← hview]
            rw [getD_set_self _ _ _ _ (by
              simp only [List.length_replicate]
              rw [show BLOCK_SIZE = 128 from by decide]
              exact getGlyphOffset_lt bits)]
          · rw [if_pos (by
              rw [bne_iff_ne, ne_eq]
              simp [hview])]
            rw [getD_set_ne _ _ _ hview]
            exact getD_replicate_default _ _ _
    | widthsArray ws0 =>
        have hblt : g >>> BLOCK_SIZE_BITS < s.mBlocks.length := by
          by_contra hc
          rw [extendBlocks_getD, getD_out_of_range (by omega)] at hold
          cases hold
        have horig : s.mBlocks.getD (g >>> BLOCK_SIZE_BITS) PtrBlock.nullBits =
            PtrBlock.widthsArray ws0 := by
          rw [← extendBlocks_getD s.mBlocks (g >>> BLOCK_SIZE_BITS)]
          exact hold
        rw [if_neg (by omega), horig]
        simp only [newBlockFor]
        rw [getD_set_ne _ _ _ hinbne]
  · -- different blocks
    have hbne : g >>> BLOCK_SIZE_BITS ≠ g2 >>> BLOCK_SIZE_BITS := hbsame
    simp only [GlyphWidths.Get, GlyphWidths.Set]
    by_cases hg2 : s.mBlocks.length ≤ g2 >>> BLOCK_SIZE_BITS
    · rw [if_pos hg2]
      by_cases hg2b : (extendBlocks s.mBlocks (g >>> BLOCK_SIZE_BITS)).length ≤
          g2 >>> BLOCK_SIZE_BITS
      · rw [if_pos (by simpa using hg2b)]
      · rw [if_neg (by simpa using hg2b)]
        rw [getD_set_ne _ _ _ hbne, extendBlocks_getD,
          getD_out_of_range hg2]
    · rw [if_neg hg2]
      rw [if_neg (by
        simp only [List.length_set]
        have := extendBlocks_len_ge s.mBlocks (g >>> BLOCK_SIZE_BITS)
        omega)]
      rw [getD_set_ne _ _ _ hbne, extendBlocks_getD]

theorem wf_empty : widthsWF ⟨[]⟩ := by
  intro b hb
  cases hb

theorem applySets_get (sets : List (Nat × Nat)) (s : GlyphWidths)
    (hwf : widthsWF s) (g : Nat) :
    (applySets sets s).Get g =
      match lastSetWidth sets g with
      | some w => w
      | none => s.Get g := by
  induction sets generalizing s with
  | nil => rfl
  | cons p rest ih =>
      obtain ⟨g2, w⟩ := p
      have hwf2 := set_wf hwf g2 w
      unfold applySets lastSetWidth
      rw [ih (s.Set g2 w) hwf2]
      cases hl : lastSetWidth rest g with
      | some w2 => rfl
      | none =>
          simp only
          by_cases hgg : g2 = g
          · subst hgg
            rw [if_pos rfl]
            exact get_set_self hwf g2 w
          · rw [if_neg hgg]
            exact get_set_ne hwf w (fun h => hgg h.symm)

/-- Claim C8: `GlyphWidths::Get` returns the width most recently stored for
the glyph by the `Set` sequence, the sentinel `INVALID_WIDTH` when nothing
was stored; a block index at or beyond the allocated block array is
answered by the length guard (never read), an empty block yields the
sentinel, and a packed single-occupant block recorded for a different
in-block offset yields the sentinel. -/
theorem C8_glyph_widths_get (sets : List (Nat × Nat)) (g : Nat)
    (s : GlyphWidths) (bits : Nat) :
    ((applySets sets ⟨[]⟩).Get g = (lastSetWidth sets g).getD INVALID_WIDTH) ∧
    (s.mBlocks.length ≤ g >>> BLOCK_SIZE_BITS → s.Get g = INVALID_WIDTH) ∧
    (s.mBlocks.getD (g >>> BLOCK_SIZE_BITS) PtrBlock.nullBits =
        PtrBlock.nullBits → s.Get g = INVALID_WIDTH) ∧
    (s.mBlocks.getD (g >>> BLOCK_SIZE_BITS) PtrBlock.nullBits =
        PtrBlock.single bits →
      GetGlyphOffset bits ≠ g &&& (BLOCK_SIZE - 1) →
      s.Get g = INVALID_WIDTH) := by
  refine ⟨?_, ?_, ?_, ?_⟩
  · rw [applySets_get sets ⟨[]⟩ wf_empty g]
    cases lastSetWidth sets g with
    | none =>
        simp only [Option.getD_none]
        simp only [GlyphWidths.Get]
        rw [if_pos (by simp)]
    | some w2 => rfl
  · intro h
    simp only [GlyphWidths.Get]
    rw [if_pos h]
  · intro h
    simp only [GlyphWidths.Get]
    split
    · rfl
    · rw [h]
  · intro h hoff
    simp only [GlyphWidths.Get]
    split
    · rfl
    · rw [h]
      simp only
      rw [if_pos (by rw [bne_iff_ne]; exact hoff)]

theorem C8_glyph_widths_get_witness :
    ((applySets [(5, 42), (133, 7), (5, 3)] ⟨[]⟩).Get 5 =
      (lastSetWidth [(5, 42), (133, 7), (5, 3)] 5).getD INVALID_WIDTH) ∧
    ((⟨[]⟩ : GlyphWidths).mBlocks.length ≤ 0 >>> BLOCK_SIZE_BITS) ∧
    ((⟨[]⟩ : GlyphWidths).Get 0 = INVALID_WIDTH) ∧
    ((⟨[PtrBlock.nullBits]⟩ : GlyphWidths).mBlocks.getD
        (3 >>> BLOCK_SIZE_BITS) PtrBlock.nullBits = PtrBlock.nullBits) ∧
    ((⟨[PtrBlock.nullBits]⟩ : GlyphWidths).Get 3 = INVALID_WIDTH) ∧
    ((⟨[PtrBlock.single (MakeSingle 5 9)]⟩ : GlyphWidths).mBlocks.getD
        (6 >>> BLOCK_SIZE_BITS) PtrBlock.nullBits =
      PtrBlock.single (MakeSingle 5 9)) ∧
    (GetGlyphOffset (MakeSingle 5 9) ≠ 6 &&& (BLOCK_SIZE - 1)) ∧
    ((⟨[PtrBlock.single (MakeSingle 5 9)]⟩ : GlyphWidths).Get 6 =
      INVALID_WIDTH) := by
  have h1 := (C8_glyph_widths_get [(5, 42), (133, 7), (5, 3)] 5 ⟨[]⟩ 0).1
  have h2 := (C8_glyph_widths_get [] 0 ⟨[]⟩ 0).2.1 (by decide)
  have h3 := (C8_glyph_widths_get [] 3 ⟨[PtrBlock.nullBits]⟩ 0).2.2.1
    (by decide)
  have h4 := (C8_glyph_widths_get [] 6 ⟨[PtrBlock.single (MakeSingle 5 9)]⟩
    (MakeSingle 5 9)).2.2.2 (by decide) (by decide)
  exact ⟨h1, by decide, h2, by decide, h3, by decide, by decide, h4⟩
